import Mathlib

/-!
# Verification of kiro2api-deno core subsystems

A shallow embedding, in Lean 4, of the core subsystems of the kiro2api-deno
gateway, together with proofs settling the frozen claims about them:

* `src/parser/robust_parser.ts` — the incremental AWS EventStream binary frame
  decoder (`RobustEventStreamParser`), embedded byte-for-byte over `List Nat`
  byte sequences (a `Uint8Array` is modelled as the list of its byte values).
* `src/parser/event_stream_parser.ts` — the per-tag-width header decoder
  (`EventStreamParser.parseHeaders`).
* `src/server/openai_stream_processor.ts` — the OpenAI chat.completion.chunk
  stream projector (`OpenAIStreamProcessorContext`).
* `src/server/stream_processor.ts` — the Anthropic SSE event converter
  (`StreamProcessorContext.convertToAnthropicEvents`).
* the non-stream collector loop (tool-input reassembly) of
  `src/server/handlers.ts` / `src/unnamed/part_003`.
* the credential pool (`TokenManager`) of `src/unnamed/part_020` and
  `src/auth/token_manager.ts`.

Modelling conventions:

* Machine integers are `Nat` / `Int`; big-endian reads are expressed as
  explicit arithmetic on byte values.
* `TextDecoder.decode` is modelled as the identity on the byte sequence: a
  decoded JavaScript string is represented by the UTF-8 bytes it came from
  (constructor `HVal.str`).  String literals of the source are injected with
  `utf8`.  This is faithful for every comparison the source performs, because
  decoding is a function of the bytes.
* JavaScript exceptions are `Except`; a `DataView` out-of-range read raises.
* JavaScript object field update (`headers[name] = v`) keeps the first
  insertion position and overwrites the value; `setKey` mirrors that.
-/

namespace Kiro

/-- Byte encoding of a Lean string; models `TextEncoder.encode` restricted to
ASCII (every string literal the embedded source compares is ASCII, where
UTF-8 bytes and code points coincide).  Used to inject the string literals of
the source into the byte-list world. -/
def utf8 (s : String) : List Nat :=
  s.data.map Char.toNat

/-- Big-endian unsigned 32-bit read at the head of a byte list; models
`DataView.getUint32(0, false)` (callers establish that 4 bytes exist). -/
def readU32BE (bs : List Nat) : Nat :=
  bs.getD 0 0 * 2 ^ 24 + bs.getD 1 0 * 2 ^ 16 + bs.getD 2 0 * 2 ^ 8 + bs.getD 3 0

/-- Big-endian unsigned 16-bit read at the head of a byte list. -/
def readU16BE (bs : List Nat) : Nat :=
  bs.getD 0 0 * 2 ^ 8 + bs.getD 1 0

/-- Signed 8-bit read (`DataView.getInt8(0)`); raises on an empty buffer,
as the JavaScript `RangeError` does. -/
def readI8 (bs : List Nat) : Except Unit Int :=
  if bs.length < 1 then .error ()
  else .ok (if bs.getD 0 0 < 128 then (Int.ofNat (bs.getD 0 0)) else Int.ofNat (bs.getD 0 0) - 256)

/-- Signed big-endian 16-bit read (`DataView.getInt16(0, false)`). -/
def readI16 (bs : List Nat) : Except Unit Int :=
  if bs.length < 2 then .error ()
  else
    let v := readU16BE bs
    .ok (if v < 2 ^ 15 then (v : Int) else (v : Int) - 2 ^ 16)

/-- Signed big-endian 32-bit read (`DataView.getInt32(0, false)`). -/
def readI32 (bs : List Nat) : Except Unit Int :=
  if bs.length < 4 then .error ()
  else
    let v := readU32BE bs
    .ok (if v < 2 ^ 31 then (v : Int) else (v : Int) - 2 ^ 32)

/-- Signed big-endian 64-bit read (`DataView.getBigInt64(0, false)` followed by
`Number(...)`, modelled exactly as the mathematical integer). -/
def readI64 (bs : List Nat) : Except Unit Int :=
  if bs.length < 8 then .error ()
  else
    let v : Nat := bs.getD 0 0 * 2 ^ 56 + bs.getD 1 0 * 2 ^ 48 + bs.getD 2 0 * 2 ^ 40 +
      bs.getD 3 0 * 2 ^ 32 + bs.getD 4 0 * 2 ^ 24 + bs.getD 5 0 * 2 ^ 16 +
      bs.getD 6 0 * 2 ^ 8 + bs.getD 7 0
    .ok (if v < 2 ^ 63 then (v : Int) else (v : Int) - 2 ^ 64)

/-- A decoded header value, as produced by either parser in the source. -/
inductive HVal where
  /-- tags 0 and 1 -/
  | bool (b : Bool)
  /-- the numeric tags (2, 3, 4, 5, 8) -/
  | num (n : Int)
  /-- tag 6, and the unknown-tag default of the robust decoder -/
  | bytes (bs : List Nat)
  /-- a decoded JavaScript string, represented by its UTF-8 bytes -/
  | str (bs : List Nat)
  /-- tag 9 rendered as canonical 8-4-4-4-12 hex (robust decoder only) -/
  | uuid (s : String)
  deriving Repr, DecidableEq

/-- JavaScript truthiness of a decoded header value. -/
def hvalTruthy : HVal → Bool
  | .bool b => b
  | .num n => decide (n ≠ 0)
  | .bytes _ => true
  | .str bs => decide (bs ≠ [])
  | .uuid s => decide (s ≠ "")

/-- Headers as an insertion-ordered association list keyed by decoded name
bytes; mirrors a JavaScript object / `Map`. -/
abbrev Headers := List (List Nat × HVal)

/-- `headers[name] = v`: overwrite in place if the key exists, else append. -/
def setKey (hs : Headers) (k : List Nat) (v : HVal) : Headers :=
  match hs with
  | [] => [(k, v)]
  | (k0, v0) :: rest => if k0 = k then (k0, v) :: rest else (k0, v0) :: setKey rest k v

/-- `headers[name]` lookup. -/
def getKey (hs : Headers) (k : List Nat) : Option HVal :=
  match hs with
  | [] => none
  | (k0, v0) :: rest => if k0 = k then some v0 else getKey rest k

/-- `headers[name] || default` (JavaScript truthiness fallback). -/
def getOrDefault (hs : Headers) (k : List Nat) (d : HVal) : HVal :=
  match getKey hs k with
  | some v => if hvalTruthy v then v else d
  | none => d

/-! ## RobustEventStreamParser (src/parser/robust_parser.ts) -/

/-- `MIN_MESSAGE_SIZE` of robust_parser.ts line 9. -/
def MIN_MESSAGE_SIZE : Nat := 16

/-- `MAX_MESSAGE_SIZE` of robust_parser.ts line 10 (16 MiB). -/
def MAX_MESSAGE_SIZE : Nat := 16 * 1024 * 1024

/-- One hex digit, lower case, as in `b.toString(16)`. -/
def hexDigit (n : Nat) : Char :=
  if n < 10 then Char.ofNat (48 + n) else Char.ofNat (87 + n)

/-- Two hex digits of one byte, as in `b.toString(16).padStart(2, '0')`. -/
def hexByte (b : Nat) : List Char :=
  [hexDigit (b / 16 % 16), hexDigit (b % 16)]

/-- The canonical 8-4-4-4-12 rendering of 16 bytes built by
`RobustEventStreamParser.parseHeaderValue` case 9. -/
def uuidHex (bs : List Nat) : String :=
  let hex := (bs.map hexByte).flatten
  ⟨hex.take 8 ++ [Char.ofNat 45] ++ (hex.drop 8).take 4 ++ [Char.ofNat 45] ++
    (hex.drop 12).take 4 ++ [Char.ofNat 45] ++ (hex.drop 16).take 4 ++ [Char.ofNat 45] ++
    hex.drop 20⟩

/-- `RobustEventStreamParser.parseHeaderValue` (robust_parser.ts lines
135-166): interpret `data` (the value bytes, already length-delimited by the
u16 field every header carries in this decoder) according to the tag.  An
out-of-range `DataView` read raises, modelled by `.error`. -/
def parseHeaderValueR (valueType : Nat) (data : List Nat) : Except Unit HVal :=
  match valueType with
  | 0 => .ok (.bool true)
  | 1 => .ok (.bool false)
  | 2 => (readI8 data).map .num
  | 3 => (readI16 data).map .num
  | 4 => (readI32 data).map .num
  | 5 => (readI64 data).map .num
  | 6 => .ok (.bytes data)
  | 7 => .ok (.str data)
  | 8 => (readI64 data).map .num
  | 9 =>
      if data.length = 16 then .ok (.uuid (uuidHex data))
      else .ok (.str data)
  | _ => .ok (.bytes data)

/-- The loop body of `RobustEventStreamParser.parseHeaders` (robust_parser.ts
lines 103-132), recursing on the bytes remaining from the current offset, with
explicit fuel (each iteration consumes at least two bytes, so any fuel of at
least `data.length` reaches the source's fixpoint; fuel `0` is unreachable
then).  Every bound-check `break` of the source returns the headers decoded so
far; a raise inside `parseHeaderValue` propagates. -/
def parseHeadersLoopR : Nat → List Nat → Headers → Except Unit Headers
  | 0, _, hs => .ok hs
  | _ + 1, [], hs => .ok hs
  | fuel + 1, nameLength :: rest, hs =>
    if rest.length < nameLength then .ok hs
    else
      let name := rest.take nameLength
      match rest.drop nameLength with
      | [] => .ok hs
      | valueType :: r3 =>
        if r3.length < 2 then .ok hs
        else
          let valueLength := readU16BE r3
          let r4 := r3.drop 2
          if r4.length < valueLength then .ok hs
          else
            match parseHeaderValueR valueType (r4.take valueLength) with
            | .error e => .error e
            | .ok v => parseHeadersLoopR fuel (r4.drop valueLength) (setKey hs name v)

/-- `RobustEventStreamParser.parseHeaders` (robust_parser.ts lines 92-133):
empty header bytes yield the hard-coded default header set. -/
def parseHeadersR (data : List Nat) : Except Unit Headers :=
  if data.length = 0 then
    .ok [(utf8 ":message-type", .str (utf8 "event")),
         (utf8 ":event-type", .str (utf8 "assistantResponseEvent")),
         (utf8 ":content-type", .str (utf8 "application/json"))]
  else parseHeadersLoopR data.length data []

/-- A decoded EventStream message (the `EventStreamMessage` record of
robust_parser.ts lines 1-7). -/
structure Msg where
  headers : Headers
  payload : List Nat
  messageType : HVal
  eventType : HVal
  contentType : HVal
  deriving Repr, DecidableEq

/-- `RobustEventStreamParser.parseSingleMessage` (robust_parser.ts lines
63-90).  Returns `none` for short input, raises on a length mismatch or a
header-value raise, and otherwise slices headers and payload and decodes the
headers. -/
def parseSingleMessageR (data : List Nat) : Except Unit (Option Msg) :=
  if data.length < MIN_MESSAGE_SIZE then .ok none
  else
    let totalLength := readU32BE data
    let headerLength := readU32BE (data.drop 4)
    if totalLength ≠ data.length then .error ()
    else
      let headerData := (data.drop 12).take headerLength
      let payloadData := (data.take (totalLength - 4)).drop (12 + headerLength)
      match parseHeadersR headerData with
      | .error e => .error e
      | .ok headers =>
        .ok (some
          { headers := headers
            payload := payloadData
            messageType := getOrDefault headers (utf8 ":message-type") (.str (utf8 "event"))
            eventType := getOrDefault headers (utf8 ":event-type") (.str (utf8 ""))
            contentType :=
              getOrDefault headers (utf8 ":content-type") (.str (utf8 "application/json")) })

/-- The `while` loop of `RobustEventStreamParser.parseStream` (robust_parser.ts
lines 30-58), recursing on the internal buffer with explicit fuel (each
iteration consumes at least one byte, so any fuel of at least `buffer.length`
reaches the source's fixpoint; fuel `0` is then unreachable).  Resync on an
out-of-range `total_length` advances one byte and counts an error WITHOUT
consulting `maxErrors`; only the per-message `catch` checks the budget. -/
def parseLoopR : Nat → List Nat → Nat → Nat → List Msg →
    Except String (List Msg × List Nat × Nat)
  | 0, buffer, errorCount, _, acc => .ok (acc, buffer, errorCount)
  | fuel + 1, buffer, errorCount, maxErrors, acc =>
    if buffer.length < MIN_MESSAGE_SIZE then .ok (acc, buffer, errorCount)
    else
      let totalLength := readU32BE buffer
      if totalLength < MIN_MESSAGE_SIZE ∨ totalLength > MAX_MESSAGE_SIZE then
        parseLoopR fuel (buffer.drop 1) (errorCount + 1) maxErrors acc
      else if buffer.length < totalLength then .ok (acc, buffer, errorCount)
      else
        let messageData := buffer.take totalLength
        let rest := buffer.drop totalLength
        match parseSingleMessageR messageData with
        | .ok (some m) => parseLoopR fuel rest errorCount maxErrors (acc ++ [m])
        | .ok none => parseLoopR fuel rest errorCount maxErrors acc
        | .error _ =>
          if errorCount + 1 ≥ maxErrors then .error "Too many errors, stopping parse"
          else parseLoopR fuel rest (errorCount + 1) maxErrors acc

/-- The mutable state of a `RobustEventStreamParser` instance. -/
structure RState where
  buffer : List Nat
  errorCount : Nat
  maxErrors : Nat
  deriving Repr, DecidableEq

/-- A freshly constructed parser (`maxErrors = 100`, robust_parser.ts line 15). -/
def RState.init : RState := ⟨[], 0, 100⟩

/-- `RobustEventStreamParser.parseStream` (robust_parser.ts lines 26-61):
append the chunk to the buffer and run the loop; a thrown budget error
propagates to the caller. -/
def parseStreamR (st : RState) (data : List Nat) :
    Except String (List Msg × RState) :=
  let buffer := st.buffer ++ data
  match parseLoopR buffer.length buffer st.errorCount st.maxErrors [] with
  | .ok (msgs, buf, ec) => .ok (msgs, ⟨buf, ec, st.maxErrors⟩)
  | .error e => .error e

instance {ε α : Type} [DecidableEq ε] [DecidableEq α] : DecidableEq (Except ε α) := fun x y =>
  match x, y with
  | .ok a, .ok b =>
    if h : a = b then isTrue (by rw [h]) else isFalse (by intro hc; cases hc; exact h rfl)
  | .error a, .error b =>
    if h : a = b then isTrue (by rw [h]) else isFalse (by intro hc; cases hc; exact h rfl)
  | .ok _, .error _ => isFalse (by intro hc; cases hc)
  | .error _, .ok _ => isFalse (by intro hc; cases hc)

instance : Inhabited Msg :=
  ⟨{ headers := [], payload := [], messageType := .bool true, eventType := .bool true,
     contentType := .bool true }⟩

/-- The message produced for a frame by `parseSingleMessage`, if any. -/
def decodeFrameR (f : List Nat) : Option Msg :=
  match parseSingleMessageR f with
  | .ok m => m
  | .error _ => none

/-- A byte sequence is a valid frame when the decoder accepts it whole: its
length is in `[MIN_MESSAGE_SIZE, MAX_MESSAGE_SIZE]`, its `total_length` field
equals its length, and `parseSingleMessage` yields a message. -/
def validFrameB (f : List Nat) : Bool :=
  decide (MIN_MESSAGE_SIZE ≤ f.length) && decide (f.length ≤ MAX_MESSAGE_SIZE) &&
  decide (readU32BE f = f.length) && (decodeFrameR f).isSome

/-- The message of a valid frame. -/
def msgOfFrame (f : List Nat) : Msg :=
  (decodeFrameR f).getD default

/-- Successive `parseStream` calls on a list of chunks against one parser
instance, concatenating the returned message lists (a thrown budget error
propagates, as it does to the caller of `parseStream`). -/
def runChunks (st : RState) (chunks : List (List Nat)) :
    Except String (List Msg × RState) :=
  match chunks with
  | [] => .ok ([], st)
  | c :: cs =>
    match parseStreamR st c with
    | .error e => .error e
    | .ok (ms, st1) =>
      match runChunks st1 cs with
      | .error e => .error e
      | .ok (ms2, st2) => .ok (ms ++ ms2, st2)

/-- A buffer on which the parse loop blocks waiting for more bytes: either
shorter than a prelude, or declaring an in-range `total_length` that exceeds
the bytes on hand. -/
def waiting (rest : List Nat) : Prop :=
  rest.length < MIN_MESSAGE_SIZE ∨
    (MIN_MESSAGE_SIZE ≤ readU32BE rest ∧ readU32BE rest ≤ MAX_MESSAGE_SIZE ∧
      rest.length < readU32BE rest)

/-- A pending buffer relative to the frames not yet emitted: empty, or a
proper nonempty prefix of the next frame. -/
def pendingPrefix (p : List Nat) (gs : List (List Nat)) : Prop :=
  p = [] ∨ ∃ g gs' q, gs = g :: gs' ∧ q ≠ [] ∧ p ++ q = g

/-- The default header set injected for empty header bytes
(robust_parser.ts lines 95-101). -/
def defaultHeaders : Headers :=
  [(utf8 ":message-type", .str (utf8 "event")),
   (utf8 ":event-type", .str (utf8 "assistantResponseEvent")),
   (utf8 ":content-type", .str (utf8 "application/json"))]

/-- A minimal frame: `total_length = 16`, zero-length headers, empty payload. -/
def frame16 : List Nat := [0, 0, 0, 16, 0, 0, 0, 0, 0, 0, 0, 0, 0, 0, 0, 0]

/-- The message decoded from `frame16`. -/
def msg16 : Msg :=
  { headers := defaultHeaders
    payload := []
    messageType := .str (utf8 "event")
    eventType := .str (utf8 "assistantResponseEvent")
    contentType := .str (utf8 "application/json") }

/-- A 16-byte buffer whose prelude declares `total_length = 15`. -/
def buf15 : List Nat := [0, 0, 0, 15] ++ List.replicate 12 0

/-- A 16-byte buffer whose prelude declares `total_length = 16 MiB + 1`. -/
def bufMaxPlus1 : List Nat := [1, 0, 0, 1] ++ List.replicate 12 0

/-- A frame of exactly `MAX_MESSAGE_SIZE` bytes: `total_length = 16 MiB`,
zero-length headers, an all-zero payload. -/
def frameMax : List Nat :=
  [1, 0, 0, 0, 0, 0, 0, 0, 0, 0, 0, 0] ++
    (List.replicate (MAX_MESSAGE_SIZE - 16) 0 ++ [0, 0, 0, 0])

/-- The message decoded from `frameMax`. -/
def msgMax : Msg :=
  { headers := defaultHeaders
    payload := List.replicate (MAX_MESSAGE_SIZE - 16) 0
    messageType := .str (utf8 "event")
    eventType := .str (utf8 "assistantResponseEvent")
    contentType := .str (utf8 "application/json") }

/-! ## EventStreamParser (src/parser/event_stream_parser.ts) -/

/-- `EventStreamParser.readUint16BE`. -/
def readU16E (bs : List Nat) : Nat :=
  bs.getD 0 0 * 2 ^ 8 + bs.getD 1 0

/-- `EventStreamParser.readUint32BE`: the source combines shifts with `|`,
which in JavaScript yields a SIGNED 32-bit value (negative when the top bit of
the first byte is set).  Modelled exactly for byte values below 256; an
out-of-range read contributes 0, as the coerced `undefined` does in a shift. -/
def readI32E (bs : List Nat) : Int :=
  let v : Nat := bs.getD 0 0 * 2 ^ 24 + bs.getD 1 0 * 2 ^ 16 + bs.getD 2 0 * 2 ^ 8 + bs.getD 3 0
  if v < 2 ^ 31 then (v : Int) else (v : Int) - 2 ^ 32

/-- `EventStreamParser.readUint64BE`: `high * 0x100000000 + low` with both
halves read by the signed 32-bit read above. -/
def readI64E (bs : List Nat) : Int :=
  readI32E bs * 2 ^ 32 + readI32E (bs.drop 4)

/-- The header map of `EventStreamParser`: insertion-ordered entries
`name ↦ {type, value}` (a JavaScript `Map`). -/
abbrev HeadersE := List (List Nat × Nat × HVal)

/-- `Map.set`: overwrite in place if the key exists, else append. -/
def setKeyP {β : Type} (hs : List (List Nat × β)) (k : List Nat) (v : β) :
    List (List Nat × β) :=
  match hs with
  | [] => [(k, v)]
  | (k0, v0) :: rest => if k0 = k then (k0, v) :: rest else (k0, v0) :: setKeyP rest k v

/-- The `while` loop of `EventStreamParser.parseHeaders`
(event_stream_parser.ts lines 101-180), recursing on the bytes remaining from
the current offset with explicit fuel (each iteration consumes at least two
bytes).  The loop has no bound checks: a read past the end of the buffer for
the value-type byte gives `undefined`, which falls to the `default` switch
case and throws; numeric reads past the end contribute 0.  An unknown tag
throws (`default` case). -/
def parseHeadersLoopE : Nat → List Nat → HeadersE → Except Unit HeadersE
  | 0, _, hs => .ok hs
  | _ + 1, [], hs => .ok hs
  | fuel + 1, nameLength :: r1, hs =>
    let name := r1.take nameLength
    let r2 := r1.drop nameLength
    match r2 with
    | [] => .error ()
    | valueType :: r3 =>
      match valueType with
      | 0 => parseHeadersLoopE fuel r3 (setKeyP hs name (0, .bool true))
      | 1 => parseHeadersLoopE fuel r3 (setKeyP hs name (1, .bool false))
      | 2 => parseHeadersLoopE fuel (r3.drop 1) (setKeyP hs name (2, .num (r3.getD 0 0)))
      | 3 => parseHeadersLoopE fuel (r3.drop 2) (setKeyP hs name (3, .num (readU16E r3)))
      | 4 => parseHeadersLoopE fuel (r3.drop 4) (setKeyP hs name (4, .num (readI32E r3)))
      | 5 => parseHeadersLoopE fuel (r3.drop 8) (setKeyP hs name (5, .num (readI64E r3)))
      | 6 =>
        let len := readU16E r3
        parseHeadersLoopE fuel ((r3.drop 2).drop len)
          (setKeyP hs name (6, .bytes ((r3.drop 2).take len)))
      | 7 =>
        let len := readU16E r3
        parseHeadersLoopE fuel ((r3.drop 2).drop len)
          (setKeyP hs name (7, .str ((r3.drop 2).take len)))
      | 8 => parseHeadersLoopE fuel (r3.drop 8) (setKeyP hs name (8, .num (readI64E r3)))
      | 9 => parseHeadersLoopE fuel (r3.drop 16) (setKeyP hs name (9, .bytes (r3.take 16)))
      | _ => .error ()

/-- `EventStreamParser.parseHeaders`: run the loop over the header bytes. -/
def parseHeadersE (bs : List Nat) : Except Unit HeadersE :=
  parseHeadersLoopE bs.length bs []

/-! ### Wire-level header descriptions for the round-trip statements -/

/-- A header value as written on the wire, following the per-tag grammar that
`EventStreamParser.parseHeaders` implements. -/
inductive HVSpec where
  | vtrue
  | vfalse
  /-- tag 2: one byte -/
  | byte (b : Nat)
  /-- tag 3: two bytes big-endian -/
  | short (a b : Nat)
  /-- tag 4: four bytes big-endian -/
  | int (a b c d : Nat)
  /-- tag 5: eight bytes big-endian -/
  | long (bs : List Nat)
  /-- tag 6: u16 length then that many bytes -/
  | blob (bs : List Nat)
  /-- tag 7: u16 length then that many bytes -/
  | strv (bs : List Nat)
  /-- tag 8: eight bytes big-endian -/
  | time (bs : List Nat)
  /-- tag 9: sixteen bytes -/
  | uuidv (bs : List Nat)
  deriving Repr, DecidableEq

/-- The wire tag of a header value. -/
def hvsTag : HVSpec → Nat
  | .vtrue => 0
  | .vfalse => 1
  | .byte _ => 2
  | .short _ _ => 3
  | .int _ _ _ _ => 4
  | .long _ => 5
  | .blob _ => 6
  | .strv _ => 7
  | .time _ => 8
  | .uuidv _ => 9

/-- The value bytes following the tag on the wire. -/
def hvsWire : HVSpec → List Nat
  | .vtrue => []
  | .vfalse => []
  | .byte b => [b]
  | .short a b => [a, b]
  | .int a b c d => [a, b, c, d]
  | .long bs => bs
  | .blob bs => bs.length / 256 :: bs.length % 256 :: bs
  | .strv bs => bs.length / 256 :: bs.length % 256 :: bs
  | .time bs => bs
  | .uuidv bs => bs

/-- The decoded value `EventStreamParser.parseHeaders` produces for each tag. -/
def hvsVal : HVSpec → HVal
  | .vtrue => .bool true
  | .vfalse => .bool false
  | .byte b => .num b
  | .short a b => .num (a * 2 ^ 8 + b)
  | .int a b c d => .num (readI32E [a, b, c, d])
  | .long bs => .num (readI64E bs)
  | .blob bs => .bytes bs
  | .strv bs => .str bs
  | .time bs => .num (readI64E bs)
  | .uuidv bs => .bytes bs

/-- Fixed-width constructors must carry their exact wire width. -/
def wfHVSpec : HVSpec → Prop
  | .long bs => bs.length = 8
  | .time bs => bs.length = 8
  | .uuidv bs => bs.length = 16
  | _ => True

instance (v : HVSpec) : Decidable (wfHVSpec v) := by
  cases v <;> unfold wfHVSpec <;> infer_instance

/-- A named header on the wire. -/
structure HdrSpec where
  name : List Nat
  v : HVSpec
  deriving Repr, DecidableEq

/-- One encoded header: `name_len, name, tag, value bytes`. -/
def encodeHdrE (h : HdrSpec) : List Nat :=
  h.name.length :: (h.name ++ hvsTag h.v :: hvsWire h.v)

/-- An encoded header block. -/
def encodeHdrsE (hs : List HdrSpec) : List Nat :=
  (hs.map encodeHdrE).flatten

/-- The map the event-stream header decoder is expected to produce. -/
def expectedHdrsE (acc : HeadersE) (hs : List HdrSpec) : HeadersE :=
  hs.foldl (fun a h => setKeyP a h.name (hvsTag h.v, hvsVal h.v)) acc

/-- A named header for the robust decoder's wire scheme: every tag carries a
u16 value length.  `interp` is the decoded value the claim concerns. -/
structure HdrSpecR where
  name : List Nat
  tag : Nat
  value : List Nat
  interp : HVal
  deriving Repr, DecidableEq

/-- One header encoded in the robust decoder's scheme:
`name_len, name, tag, u16 value_len, value bytes`. -/
def encodeHdrR (h : HdrSpecR) : List Nat :=
  h.name.length :: (h.name ++ h.tag :: h.value.length / 256 :: h.value.length % 256 :: h.value)

/-- An encoded header block in the robust decoder's scheme. -/
def encodeHdrsR (hs : List HdrSpecR) : List Nat :=
  (hs.map encodeHdrR).flatten

/-- The map the robust header decoder is expected to produce. -/
def expectedHdrsR (acc : Headers) (hs : List HdrSpecR) : Headers :=
  hs.foldl (fun a h => setKey a h.name h.interp) acc

/-! ## JSON values

Payloads are JSON; `JSON.parse` itself (a platform primitive) is taken as a
parameter `jp` of the functions that use it, so every theorem quantifies over
it — all that matters to the claims is that it is a function of its input. -/

inductive Json where
  | null
  | bool (b : Bool)
  | num (n : Int)
  | str (s : String)
  | arr (xs : List Json)
  | obj (fs : List (String × Json))
  deriving Repr

/-- Structural equality on JSON values (JavaScript `===` on the strings and
primitives the embedded code compares; object identity is approximated
structurally, which coincides for the string ids the code keys on). -/
def Json.beq : Json → Json → Bool
  | .null, .null => true
  | .bool a, .bool b => a == b
  | .num a, .num b => a == b
  | .str a, .str b => a == b
  | .arr xs, .arr ys => beqL xs ys
  | .obj xs, .obj ys => beqO xs ys
  | _, _ => false
where
  beqL : List Json → List Json → Bool
    | [], [] => true
    | x :: xs, y :: ys => Json.beq x y && beqL xs ys
    | _, _ => false
  beqO : List (String × Json) → List (String × Json) → Bool
    | [], [] => true
    | (k1, v1) :: xs, (k2, v2) :: ys => k1 == k2 && Json.beq v1 v2 && beqO xs ys
    | _, _ => false

theorem Json.beqL_iff (xs ys : List Json)
    (h : ∀ x ∈ xs, ∀ b, Json.beq x b = true ↔ x = b) :
    Json.beq.beqL xs ys = true ↔ xs = ys := by
  induction xs generalizing ys with
  | nil => cases ys <;> simp [Json.beq.beqL]
  | cons x xs ih =>
    cases ys with
    | nil => simp [Json.beq.beqL]
    | cons y ys =>
      simp only [Json.beq.beqL, Bool.and_eq_true, List.cons.injEq]
      rw [h x (by simp) y, ih ys (fun z hz b => h z (by simp [hz]) b)]

theorem Json.beqO_iff (xs ys : List (String × Json))
    (h : ∀ p ∈ xs, ∀ b, Json.beq p.2 b = true ↔ p.2 = b) :
    Json.beq.beqO xs ys = true ↔ xs = ys := by
  induction xs generalizing ys with
  | nil => cases ys <;> simp [Json.beq.beqO]
  | cons x xs ih =>
    cases ys with
    | nil => simp [Json.beq.beqO]
    | cons y ys =>
      obtain ⟨k1, v1⟩ := x
      obtain ⟨k2, v2⟩ := y
      simp only [Json.beq.beqO, Bool.and_eq_true, List.cons.injEq, Prod.mk.injEq,
        beq_iff_eq, and_assoc]
      rw [h (k1, v1) (by simp) v2, ih ys (fun z hz b => h z (by simp [hz]) b)]

theorem Json.beq_iff_eq_aux : ∀ (n : Nat) (a b : Json), sizeOf a ≤ n →
    (Json.beq a b = true ↔ a = b) := by
  intro n
  induction n with
  | zero =>
    intro a b hs
    exact absurd hs (by cases a <;> simp)
  | succ n ih =>
    intro a b hs
    cases a <;> cases b <;> simp [Json.beq]
    case arr.arr xs ys =>
      rw [Json.beqL_iff xs ys]
      intro x hx b
      refine ih x b ?_
      have h1 : sizeOf x < sizeOf xs := List.sizeOf_lt_of_mem hx
      have h2 : sizeOf (Json.arr xs) = 1 + sizeOf xs := by simp
      omega
    case obj.obj xs ys =>
      rw [Json.beqO_iff xs ys]
      intro p hp b
      refine ih p.2 b ?_
      have h1 : sizeOf p < sizeOf xs := List.sizeOf_lt_of_mem hp
      have h2 : sizeOf p.2 < sizeOf p := by
        obtain ⟨k, v⟩ := p
        simp
      have h3 : sizeOf (Json.obj xs) = 1 + sizeOf xs := by simp
      omega

theorem Json.beq_iff_eq (a b : Json) : Json.beq a b = true ↔ a = b :=
  Json.beq_iff_eq_aux (sizeOf a) a b (le_refl _)

instance : DecidableEq Json := fun a b =>
  match h : Json.beq a b with
  | true => isTrue ((Json.beq_iff_eq a b).mp h)
  | false => isFalse (fun hc => by
      rw [← Json.beq_iff_eq a b] at hc
      rw [hc] at h
      exact Bool.noConfusion h)

/-- Object field access `j[k]`; `none` models `undefined`. -/
def jget (j : Json) (k : String) : Option Json :=
  match j with
  | .obj fs => fs.lookup k
  | _ => none

/-- JavaScript truthiness of a JSON value. -/
def jTruthy : Json → Bool
  | .null => false
  | .bool b => b
  | .num n => decide (n ≠ 0)
  | .str s => decide (s ≠ "")
  | .arr _ => true
  | .obj _ => true

/-- Truthiness of a field (`undefined` is falsy). -/
def fieldTruthy (j : Json) (k : String) : Bool :=
  match jget j k with
  | some v => jTruthy v
  | none => false

/-- `payload.assistantResponseEvent || payload`. -/
def eventOf (payload : Json) : Json :=
  match jget payload "assistantResponseEvent" with
  | some v => if jTruthy v then v else payload
  | none => payload

/-- Does the character list `s` start with `sub`? -/
def startsWithL : List Char → List Char → Bool
  | _, [] => true
  | [], _ :: _ => false
  | c :: cs, d :: ds => c == d && startsWithL cs ds

/-- Does the character list `s` contain `sub` as a contiguous run? -/
def hasSubstr : List Char → List Char → Bool
  | [], sub => sub.isEmpty
  | c :: t, sub => startsWithL (c :: t) sub || hasSubstr t sub

/-- JavaScript `String.prototype.includes` (substring test). -/
def jsIncludes (s sub : String) : Bool :=
  hasSubstr s.data sub.data

/-- JavaScript `String.prototype.trim`, restricted to ASCII whitespace. -/
def jsTrim (s : String) : String :=
  let ws := fun c => c = Char.ofNat 32 || c = Char.ofNat 9 || c = Char.ofNat 10 ||
    c = Char.ofNat 13
  ⟨((s.data.dropWhile ws).reverse.dropWhile ws).reverse⟩

/-- Association lookup keyed by JSON values (a `Map` keyed by the cast id). -/
def jassoc {β : Type} (m : List (Json × β)) (k : Json) : Option β :=
  match m with
  | [] => none
  | (k0, v) :: rest => if Json.beq k0 k then some v else jassoc rest k

/-! ## OpenAIStreamProcessorContext (src/server/openai_stream_processor.ts) -/

/-- One record enqueued to the client by the OpenAI projector.  Ambient
metadata that every chunk repeats (`id`, `object`, `created`, `model`) is
elided; each constructor captures the fields that vary.  `errorChunk` is the
additional error record the spec's OpenAI projection describes — the
processor has no emission site for it. -/
inductive OutRec where
  /-- the initial `delta: {role: "assistant"}` chunk -/
  | initialChunk
  /-- `delta: {content: <event.content>}` -/
  | contentChunk (v : Json)
  /-- `delta.tool_calls = [{index, id, type: "function", function: {name, arguments: ""}}]` -/
  | toolStart (idx : Nat) (id name : Json)
  /-- `delta.tool_calls = [{index, function: {arguments}}]` -/
  | toolDelta (idx : Nat) (args : String)
  /-- the terminal chunk `delta: {}, finish_reason` -/
  | finalChunk (finish : String)
  /-- the literal `data: [DONE]` record -/
  | done
  /-- an error chunk (described by the spec, never emitted by this processor) -/
  | errorChunk
  deriving Repr, DecidableEq

/-- The mutable state of an `OpenAIStreamProcessorContext`
(`totalProcessedEvents`, a statistic that never affects output, is elided). -/
structure OState where
  toolIndexByToolUseId : List (Json × Nat)
  nextToolIndex : Nat
  sawToolUse : Bool
  forcedFinishReason : Option String
  parser : RState
  deriving Repr, DecidableEq

/-- A freshly constructed processor context. -/
def OState.init : OState := ⟨[], 0, false, none, RState.init⟩

/-- The exception type `(event.exception_type as string) || (event.__type as
string)`. -/
def exceptionTypeOf (event : Json) : Option Json :=
  if fieldTruthy event "exception_type" then jget event "exception_type"
  else jget event "__type"

/-- The test of `handleExceptionEvent` (openai_stream_processor.ts lines
198-204): the exception type equals `ContentLengthExceededException` or
contains `CONTENT_LENGTH_EXCEEDS`.  A missing type short-circuits to false via
`?.`; a truthy non-string type would raise a `TypeError` in JavaScript and is
modelled as false (no claim exercises it). -/
def isContentLenExceeded (event : Json) : Bool :=
  match exceptionTypeOf event with
  | some (.str s) =>
    s == "ContentLengthExceededException" || jsIncludes s "CONTENT_LENGTH_EXCEEDS"
  | _ => false

/-- `OpenAIStreamProcessorContext.processMessage` (lines 89-186) applied to a
decoded payload: returns the updated state, the records enqueued, and the
`shouldTerminate` flag.  The exception check runs first; then a truthy
`content` emits a content chunk; then a `toolUseId`+`name` event allocates a
dense tool index on first sight (emitting the tool-start chunk) and a truthy
string `input` emits an arguments chunk. -/
def processMessage (st : OState) (payload : Json) : OState × List OutRec × Bool :=
  let event := eventOf payload
  if isContentLenExceeded event then
    ({ st with forcedFinishReason := some "length" },
     [.finalChunk "length", .done], true)
  else
    let contentRecs : List OutRec :=
      if fieldTruthy event "content" then [.contentChunk ((jget event "content").getD .null)]
      else []
    if fieldTruthy event "toolUseId" && fieldTruthy event "name" then
      let toolUseId := (jget event "toolUseId").getD .null
      let toolName := (jget event "name").getD .null
      let (st1, startRecs, toolIdx) :=
        match jassoc st.toolIndexByToolUseId toolUseId with
        | some idx => (st, ([] : List OutRec), idx)
        | none =>
          ({ st with
              toolIndexByToolUseId := st.toolIndexByToolUseId ++ [(toolUseId, st.nextToolIndex)]
              nextToolIndex := st.nextToolIndex + 1
              sawToolUse := true },
           [.toolStart st.nextToolIndex toolUseId toolName], st.nextToolIndex)
      let deltaRecs : List OutRec :=
        match jget event "input" with
        | some (.str s) => if s ≠ "" then [.toolDelta toolIdx s] else []
        | _ => []
      (st1, contentRecs ++ startRecs ++ deltaRecs, false)
    else
      (st, contentRecs, false)

/-- The inner `for` loop of `processEventStream` (lines 284-293): process the
decoded messages of one chunk until one of them sets `shouldTerminate`.
`jp` models `JSON.parse` composed with UTF-8 decoding; a parse failure skips
the message (the `catch` at line 99). -/
def processMessages (jp : List Nat → Option Json) :
    OState → List Msg → OState × List OutRec × Bool
  | st, [] => (st, [], false)
  | st, m :: ms =>
    match jp m.payload with
    | none => processMessages jp st ms
    | some payload =>
      let (st1, recs, term) := processMessage st payload
      if term then (st1, recs, true)
      else
        let (st2, recs2, term2) := processMessages jp st1 ms
        (st2, recs ++ recs2, term2)

/-- The read loop of `processEventStream` (lines 277-299) over the upstream
byte chunks.  The final component is true when the binary parser threw (the
error propagates to the caller's `catch`, which calls `controller.error`). -/
def processChunks (jp : List Nat → Option Json) :
    OState → List (List Nat) → OState × List OutRec × Bool × Bool
  | st, [] => (st, [], false, false)
  | st, c :: cs =>
    match parseStreamR st.parser c with
    | .error _ => (st, [], false, true)
    | .ok (msgs, p) =>
      let (st1, recs, term) := processMessages jp { st with parser := p } msgs
      if term then (st1, recs, true, false)
      else
        let (st2, recs2, term2, err2) := processChunks jp st1 cs
        (st2, recs ++ recs2, term2, err2)

/-- The whole stream body of `handleOpenAIStreamRequest` (lines 363-396):
initial role chunk, the event stream, then `sendFinalEvent` — unless the
processing threw, in which case `controller.error` ends the stream with no
terminal records. -/
def fullRun (jp : List Nat → Option Json) (chunks : List (List Nat)) : List OutRec :=
  let (st, recs, _, err) := processChunks jp OState.init chunks
  if err then .initialChunk :: recs
  else
    .initialChunk :: (recs ++
      [.finalChunk (st.forcedFinishReason.getD (if st.sawToolUse then "tool_calls" else "stop")),
       .done])

/-! ## StreamProcessorContext.convertToAnthropicEvents
(src/server/stream_processor.ts lines 183-264) -/

/-- An Anthropic SSE event produced by the converter. -/
inductive AEvent where
  /-- `content_block_start` with a text block -/
  | blockStartText (index : Nat)
  /-- `content_block_delta` with a `text_delta` -/
  | blockDeltaText (index : Nat) (text : String)
  /-- `content_block_start` with a `tool_use` block -/
  | blockStartTool (index : Nat) (id name : Json)
  /-- `content_block_delta` with an `input_json_delta` -/
  | blockDeltaJson (index : Nat) (partialJson : String)
  /-- `content_block_stop` -/
  | blockStop (index : Nat)
  deriving Repr, DecidableEq

/-- The converter's per-stream state. -/
structure AState where
  toolUseIdByBlockIndex : List (Nat × Json)
  textBlockStarted : Bool
  deriving Repr, DecidableEq

/-- A fresh converter state. -/
def AState.init : AState := ⟨[], false⟩

/-- Find the block index already assigned to a tool-use id (the `for` loop at
lines 218-223, insertion order, first match). -/
def findBlockIndex (m : List (Nat × Json)) (toolUseId : Json) : Option Nat :=
  match m with
  | [] => none
  | (idx, id0) :: rest => if Json.beq id0 toolUseId then some idx else findBlockIndex rest toolUseId

/-- `convertToAnthropicEvents`: text content opens block 0 lazily and emits a
text delta; a `toolUseId`+`name` event allocates block index `size + 1` on
first sight (emitting a tool-use `content_block_start` with empty input), a
string `input` emits an `input_json_delta`, and a truthy `stop` emits
`content_block_stop`.  There is NO `web_search` filter in this path. -/
def convertToAnthropicEvents (st : AState) (event : Json) :
    AState × List AEvent :=
  let (st1, textEvents) :=
    match jget event "content" with
    | some (.str s) =>
      if s ≠ "" then
        if st.textBlockStarted then (st, [AEvent.blockDeltaText 0 s])
        else ({ st with textBlockStarted := true },
          [AEvent.blockStartText 0, AEvent.blockDeltaText 0 s])
      else (st, [])
    | _ => (st, [])
  if fieldTruthy event "toolUseId" && fieldTruthy event "name" then
    let toolUseId := (jget event "toolUseId").getD .null
    let toolName := (jget event "name").getD .null
    let (st2, startEvents, blockIndex) :=
      match findBlockIndex st1.toolUseIdByBlockIndex toolUseId with
      | some idx => (st1, ([] : List AEvent), idx)
      | none =>
        let idx := st1.toolUseIdByBlockIndex.length + 1
        ({ st1 with toolUseIdByBlockIndex := st1.toolUseIdByBlockIndex ++ [(idx, toolUseId)] },
         [AEvent.blockStartTool idx toolUseId toolName], idx)
    let deltaEvents : List AEvent :=
      match jget event "input" with
      | some (.str s) => if s ≠ "" then [AEvent.blockDeltaJson blockIndex s] else []
      | _ => []
    let stopEvents : List AEvent :=
      if fieldTruthy event "stop" then [AEvent.blockStop blockIndex] else []
    (st2, textEvents ++ startEvents ++ deltaEvents ++ stopEvents)
  else
    (st1, textEvents)

/-! ## Non-stream collector (src/unnamed/part_003 lines 204-312; the same
loop appears in src/server/handlers.ts lines 512-595 with the stop handling
nested inside the name gate and `JSON.parse` behind the missing
`extractToolInput` helper) -/

/-- One accumulated tool use: `{type: "tool_use", id, name, input}`. -/
structure ToolEntry where
  id : Json
  name : Json
  input : Json
  deriving Repr, DecidableEq

/-- The collector's accumulators.  `content` keeps the concatenated `content`
values as a list (the source concatenates strings); `warns` counts the
`logger.warn` calls for failed `JSON.parse` of a fragment buffer. -/
structure CState where
  content : List Json
  toolUsesMap : List (Json × ToolEntry)
  toolInputBuffers : List (Json × String)
  warns : Nat
  deriving Repr, DecidableEq

/-- An empty collector. -/
def CState.init : CState := ⟨[], [], [], 0⟩

/-- Update the entry for a key in a `Map`, leaving other entries in place. -/
def updEntry {β : Type} (m : List (Json × β)) (k : Json) (f : β → β) : List (Json × β) :=
  match m with
  | [] => []
  | (k0, v) :: rest => if Json.beq k0 k then (k0, f v) :: rest else (k0, v) :: updEntry rest k f

/-- `Object.keys(x).length` for the values the final pass can meet. -/
def keysLength : Json → Nat
  | .obj fs => fs.length
  | .str s => s.length
  | .arr xs => xs.length
  | _ => 0

/-- The body of the collector loop for one decoded payload
(part_003 lines 223-291).  `jps` models `JSON.parse` on the accumulated
fragment string.  Filtering, accumulation and stop-parsing mirror the source:
a `web_search`/`websearch` name skips the message entirely (`continue`); an
object fragment overwrites `input`; a string fragment appends to the per-id
buffer; a truthy `stop` with a nonblank buffer parses it once — on success the
value becomes `input`, on failure the input is kept and a warning counted. -/
def collectEvent (jps : String → Option Json) (st : CState) (event : Json) : CState :=
  let st1 :=
    if fieldTruthy event "content" then
      { st with content := st.content ++ [(jget event "content").getD .null] }
    else st
  let isTool := fieldTruthy event "toolUseId" && fieldTruthy event "name"
  let isWebSearch :=
    match jget event "name" with
    | some (.str s) => s == "web_search" || s == "websearch"
    | _ => false
  if isTool && isWebSearch then st1
  else
    let st2 :=
      if isTool then
        let toolId := (jget event "toolUseId").getD .null
        let toolName := (jget event "name").getD .null
        let st2a :=
          match jassoc st1.toolUsesMap toolId with
          | some _ => st1
          | none =>
            { st1 with
                toolUsesMap := st1.toolUsesMap ++
                  [(toolId, { id := toolId, name := toolName, input := .obj [] })]
                toolInputBuffers := st1.toolInputBuffers ++ [(toolId, "")] }
        match jget event "input" with
        | some (.obj fs) =>
          { st2a with toolUsesMap :=
              updEntry st2a.toolUsesMap toolId (fun t => { t with input := .obj fs }) }
        | some (.str s) =>
          { st2a with toolInputBuffers :=
              updEntry st2a.toolInputBuffers toolId (fun b => b ++ s) }
        | _ => st2a
      else st1
    if fieldTruthy event "stop" && fieldTruthy event "toolUseId" then
      let toolId := (jget event "toolUseId").getD .null
      match jassoc st2.toolUsesMap toolId, jassoc st2.toolInputBuffers toolId with
      | some _, some buf =>
        if buf ≠ "" && jsTrim buf ≠ "" then
          match jps buf with
          | some v =>
            { st2 with toolUsesMap :=
                updEntry st2.toolUsesMap toolId (fun t => { t with input := v }) }
          | none => { st2 with warns := st2.warns + 1 }
        else st2
      | _, _ => st2
    else st2

/-- The collector loop over the decoded frame payloads, then the final pass
(part_003 lines 294-312): any nonblank buffer whose tool still has an empty
input is parsed once more, with the same failure policy. -/
def collect (jps : String → Option Json) (payloads : List Json) : CState :=
  let body := payloads.foldl (fun st p => collectEvent jps st (eventOf p)) CState.init
  body.toolInputBuffers.foldl
    (fun st (kb : Json × String) =>
      if kb.2 ≠ "" && jsTrim kb.2 ≠ "" then
        match jassoc st.toolUsesMap kb.1 with
        | some t =>
          if jTruthy t.input && keysLength t.input = 0 then
            match jps kb.2 with
            | some v =>
              { st with toolUsesMap :=
                  updEntry st.toolUsesMap kb.1 (fun t0 => { t0 with input := v }) }
            | none => { st with warns := st.warns + 1 }
          else st
        | none => st
      else st)
    body

/-! ### Concrete fixtures for witnesses and counterexamples -/

/-- A 17-byte frame (zero-length headers) whose payload is the single byte
`b`. -/
def frameP (b : Nat) : List Nat :=
  [0, 0, 0, 17, 0, 0, 0, 0, 0, 0, 0, 0, b, 0, 0, 0, 0]

/-- A concrete `JSON.parse ∘ decode` assignment for the one-byte payloads of
`frameP`: payload `[1]` is a `ContentLengthExceededException` event, `[2]` a
tool-use start, `[3]` an unrelated exception, `[4]` a `web_search` tool-use
start. -/
def jpFix : List Nat → Option Json := fun bs =>
  if bs = [1] then some (.obj [("__type", .str "ContentLengthExceededException")])
  else if bs = [2] then some (.obj [("toolUseId", .str "t1"), ("name", .str "calc")])
  else if bs = [3] then some (.obj [("__type", .str "SomethingElse")])
  else if bs = [4] then some (.obj [("toolUseId", .str "t1"), ("name", .str "web_search")])
  else none

/-- A concrete `JSON.parse` assignment on fragment strings: only the valid
JSON text `[1]` parses. -/
def jpsFix : String → Option Json := fun s =>
  if s = "[1]" then some (.arr [.num 1]) else none

/-- Collector fixture: a tool-use start for id `t1`. -/
def cEvStart : Json := .obj [("toolUseId", .str "t1"), ("name", .str "calc")]

/-- Collector fixture: an input fragment for `t1` WITHOUT a `name` field (the
shape of `tool_use_delta` in the data model). -/
def cEvFrag : Json := .obj [("toolUseId", .str "t1"), ("input", .str "[1]")]

/-- Collector fixture: the stop event for `t1`. -/
def cEvStop : Json := .obj [("toolUseId", .str "t1"), ("stop", .bool true)]

/-- Collector fixture: an input fragment for `t1` that also carries a `name`
field (the only shape the accumulation gate lets through). -/
def cEvFragNamed : Json :=
  .obj [("toolUseId", .str "t1"), ("name", .str "calc"), ("input", .str "[1]")]

/-- Collector fixture: an object input fragment for `t1` with a `name`. -/
def cEvObjNamed : Json :=
  .obj [("toolUseId", .str "t1"), ("name", .str "calc"), ("input", .obj [("a", .num 1)])]

/-- Collector fixture: the state right after the `t1` tool-use start. -/
def cStateW : CState :=
  ⟨[], [(.str "t1", ⟨.str "t1", .str "calc", .obj []⟩)], [(.str "t1", "")], 0⟩

/-- Collector fixture: a state whose `t1` buffer holds valid JSON. -/
def cStateBuf : CState :=
  ⟨[], [(.str "t1", ⟨.str "t1", .str "calc", .obj []⟩)], [(.str "t1", "[1]")], 0⟩

/-- Collector fixture: a state whose `t1` buffer holds malformed JSON. -/
def cStateBufBad : CState :=
  ⟨[], [(.str "t1", ⟨.str "t1", .str "calc", .obj []⟩)], [(.str "t1", "oops")], 0⟩

/-! ## TokenManager.getBestTokenWithUsage (src/unnamed/part_020 lines 169-228)

The token cache is reduced to the one field the selection loop reads and
writes, the `available` count; `getOrRefreshToken` — network I/O plus the
refresh machinery — is an oracle parameter that may rewrite the cache
arbitrarily or throw, so every theorem below holds for the real
implementation as a special case. -/

/-- Association lookup in a `Map` keyed by the config index. -/
def natAssoc {β : Type} (m : List (Nat × β)) (k : Nat) : Option β :=
  match m with
  | [] => none
  | (k0, v) :: rest => if k0 = k then some v else natAssoc rest k

/-- Update the entry for a key in a `Map`, leaving other entries in place. -/
def natUpd {β : Type} (m : List (Nat × β)) (k : Nat) (f : β → β) : List (Nat × β) :=
  match m with
  | [] => []
  | (k0, v) :: rest => if k0 = k then (k0, f v) :: rest else (k0, v) :: natUpd rest k f

/-- `Set.prototype.add`: append if not already present. -/
def addSet (s : List Nat) (i : Nat) : List Nat := if i ∈ s then s else s ++ [i]

/-- The pool state `getBestTokenWithUsage` touches: the `available` count of
each cached entry, the exhausted set, and the rotation cursor. -/
structure PoolState where
  cache : List (Nat × Int)
  exhausted : List Nat
  currentIndex : Nat
  deriving Repr, DecidableEq

/-- The observable actions of one `getBestTokenWithUsage` call, in program
order. -/
inductive PoolAct where
  /-- `this.exhausted.add(configIndex)` on the quota check -/
  | markExhausted (i : Nat)
  /-- `this.currentIndex = (this.currentIndex + 1) % this.configs.length` -/
  | advance (i next : Nat)
  /-- the `catch` block marked the index after a refresh failure -/
  | caught (i : Nat)
  /-- `cachedToken.available--` -/
  | decrement (i : Nat)
  /-- `return { tokenInfo, configIndex, ... }` -/
  | ret (i : Nat)
  /-- `throw new Error("All token configurations failed")` -/
  | fail
  deriving Repr, DecidableEq

/-- The `for` loop of `getBestTokenWithUsage` (lines 173-227), fuelled by the
remaining attempts.  `oracle` stands for `await this.getOrRefreshToken(...)`:
it receives the remaining-attempt counter and the cache and either throws or
returns the cache as the awaited call left it.  A missing entry after a
successful oracle call models the `!` assertion meeting `undefined` — the
`TypeError` lands in the same `catch` as a refresh failure.  Returns the final
state, the action trace, and `(configIndex, availableBefore)` when a token was
selected. -/
def selectLoop (oracle : Nat → List (Nat × Int) → Except Unit (List (Nat × Int))) (n : Nat) :
    Nat → PoolState → PoolState × List PoolAct × Option (Nat × Int)
  | 0, st => (st, [.fail], none)
  | attempt + 1, st =>
    let configIndex := st.currentIndex
    let isExhausted : Bool :=
      match natAssoc st.cache configIndex with
      | some avail => decide (avail ≤ 0)
      | none => false
    if isExhausted then
      let st1 := { st with exhausted := addSet st.exhausted configIndex,
                           currentIndex := (st.currentIndex + 1) % n }
      let (st2, acts, res) := selectLoop oracle n attempt st1
      (st2, .markExhausted configIndex ::
        .advance configIndex ((configIndex + 1) % n) :: acts, res)
    else
      match oracle attempt st.cache with
      | .error _ =>
        let st1 := { st with exhausted := addSet st.exhausted configIndex,
                             currentIndex := (st.currentIndex + 1) % n }
        let (st2, acts, res) := selectLoop oracle n attempt st1
        (st2, .caught configIndex ::
          .advance configIndex ((configIndex + 1) % n) :: acts, res)
      | .ok cache1 =>
        match natAssoc cache1 configIndex with
        | none =>
          let st1 := { st with cache := cache1,
                               exhausted := addSet st.exhausted configIndex,
                               currentIndex := (st.currentIndex + 1) % n }
          let (st2, acts, res) := selectLoop oracle n attempt st1
          (st2, .caught configIndex ::
            .advance configIndex ((configIndex + 1) % n) :: acts, res)
        | some avail =>
          if 0 < avail then
            ({ st with cache := natUpd cache1 configIndex (fun a => a - 1) },
             [.decrement configIndex, .ret configIndex], some (configIndex, avail))
          else
            ({ st with cache := cache1 },
             [.ret configIndex], some (configIndex, avail))

/-- `getBestTokenWithUsage`: run the loop with `maxAttempts =
this.configs.length` attempts. -/
def getBestTokenWithUsage (oracle : Nat → List (Nat × Int) → Except Unit (List (Nat × Int)))
    (n : Nat) (st : PoolState) : PoolState × List PoolAct × Option (Nat × Int) :=
  selectLoop oracle n n st

/-- Does every `decrement i` in a trace come immediately before `ret i` —
i.e. is a quota decrement always the one performed on the attempt that
returns that index's token? -/
def decRetOK : List PoolAct → Bool
  | [] => true
  | PoolAct.decrement i :: rest =>
    match rest with
    | PoolAct.ret j :: rest2 => i == j && decRetOK rest2
    | _ => false
  | _ :: rest => decRetOK rest

/-! ## TokenManager.getOrRefreshToken single-flight
(src/unnamed/part_020 lines 234-285; src/auth/token_manager.ts lines 59-85)

Concurrency model.  Under the JavaScript event loop a task runs atomically
between `await` points.  In both versions of `getOrRefreshToken` there is no
`await` between the cache check, the `refreshLocks.get` check, the start of
the refresh (which issues the upstream call synchronously up to its first
internal `await`) and `refreshLocks.set`: that whole prefix is one atomic
segment, modelled as `getOrRefreshStep`.  The promise resolution — success
caches the token and clears the lock inside `performRefresh` (part_020) or a
`finally` (auth version); failure clears the lock in the creator's `catch`
(part_020) or the same `finally` — is the second atomic segment,
`resolveRefresh`, which hands the single refresh's outcome to every waiting
task. -/

/-- The per-index state shared by concurrent `getOrRefreshToken(i)` calls:
whether the cache entry is fresh, whether a refresh promise is registered in
`refreshLocks`, how many upstream refresh calls were issued, which tasks await
the in-flight promise, and the results handed out (task id ↦ did the task get
the refreshed token). -/
structure SFState where
  cacheFresh : Bool
  lock : Bool
  upstreamCalls : Nat
  waiters : List Nat
  results : List (Nat × Bool)
  deriving Repr, DecidableEq

/-- The idle stale state: no fresh cache entry, no refresh in flight. -/
def SFState.stale : SFState := ⟨false, false, 0, [], []⟩

/-- One task's atomic entry segment of `getOrRefreshToken`: a fresh cache
returns it immediately; an existing lock makes the task await that promise; a
stale, unlocked state issues the upstream call, registers the lock, and awaits
the newly created promise. -/
def getOrRefreshStep (st : SFState) (tid : Nat) : SFState :=
  if st.cacheFresh then { st with results := st.results ++ [(tid, false)] }
  else if st.lock then { st with waiters := st.waiters ++ [tid] }
  else { st with upstreamCalls := st.upstreamCalls + 1, lock := true,
                 waiters := st.waiters ++ [tid] }

/-- The atomic resolution of the in-flight refresh: on success the token is
cached and the lock cleared, on failure only the lock is cleared; every
waiting task resumes with this refresh's outcome. -/
def resolveRefresh (st : SFState) (success : Bool) : SFState :=
  { st with lock := false,
            cacheFresh := success,
            results := st.results ++ st.waiters.map (fun tid => (tid, success)),
            waiters := [] }

/-- A schedule in which every task's entry segment runs before the refresh
resolves (the concurrent-while-stale scenario of the claim). -/
def runGetOrRefresh (tids : List Nat) (st : SFState) : SFState :=
  tids.foldl getOrRefreshStep st

/-! ## Properties of the robust frame decoder -/

lemma readU32BE_append (f rest : List Nat) (h : 4 ≤ f.length) :
    readU32BE (f ++ rest) = readU32BE f := by
  unfold readU32BE
  rw [List.getD_append (h := by omega), List.getD_append (h := by omega),
    List.getD_append (h := by omega), List.getD_append (h := by omega)]

lemma parseLoopR_waiting (buffer : List Nat) (h : waiting buffer)
    (fuel ec me : Nat) (acc : List Msg) :
    parseLoopR fuel buffer ec me acc = .ok (acc, buffer, ec) := by
  cases fuel with
  | zero => rfl
  | succ n =>
    rw [parseLoopR]
    by_cases hshort : buffer.length < MIN_MESSAGE_SIZE
    · rw [if_pos hshort]
    · rcases h with h | ⟨h1, h2, h3⟩
      · exact absurd h hshort
      · rw [if_neg hshort, if_neg (by omega), if_pos h3]

lemma parseLoopR_fuel (fuel : Nat) : ∀ (buffer : List Nat) (ec me : Nat) (acc : List Msg),
    buffer.length ≤ fuel →
    parseLoopR fuel buffer ec me acc = parseLoopR buffer.length buffer ec me acc := by
  induction fuel using Nat.strong_induction_on with
  | _ fuel ih =>
    intro buffer ec me acc hle
    by_cases hshort : buffer.length < MIN_MESSAGE_SIZE
    · rw [parseLoopR_waiting _ (Or.inl hshort), parseLoopR_waiting _ (Or.inl hshort)]
    · have h16 : 16 ≤ buffer.length := by
        simp only [MIN_MESSAGE_SIZE, Nat.not_lt] at hshort
        exact hshort
      obtain ⟨n, hn⟩ : ∃ n, fuel = n + 1 := ⟨fuel - 1, by omega⟩
      obtain ⟨k, hk⟩ : ∃ k, buffer.length = k + 1 := ⟨buffer.length - 1, by omega⟩
      have hkn : k ≤ n := by omega
      subst hn
      conv_lhs => rw [parseLoopR]
      conv_rhs => rw [hk, parseLoopR]
      rw [if_neg hshort, if_neg hshort]
      by_cases hrange : readU32BE buffer < MIN_MESSAGE_SIZE ∨ readU32BE buffer > MAX_MESSAGE_SIZE
      · rw [if_pos hrange, if_pos hrange,
          ih n (by omega) _ _ _ _ (by simp only [List.length_drop]; omega),
          ih k (by omega) _ _ _ _ (by simp only [List.length_drop]; omega)]
      · have hru : 16 ≤ readU32BE buffer := by
          rcases Nat.lt_or_ge (readU32BE buffer) MIN_MESSAGE_SIZE with h | h
          · exact absurd (Or.inl h) hrange
          · simpa [MIN_MESSAGE_SIZE] using h
        rw [if_neg hrange, if_neg hrange]
        by_cases hlen : buffer.length < readU32BE buffer
        · rw [if_pos hlen, if_pos hlen]
        · rw [if_neg hlen, if_neg hlen]
          have hd : (buffer.drop (readU32BE buffer)).length ≤ k := by
            simp only [List.length_drop]
            omega
          cases hps : parseSingleMessageR (buffer.take (readU32BE buffer)) with
          | ok om =>
            cases om with
            | some m =>
              simp only [hps]
              rw [ih n (by omega) _ _ _ _ (by omega), ih k (by omega) _ _ _ _ hd]
            | none =>
              simp only [hps]
              rw [ih n (by omega) _ _ _ _ (by omega), ih k (by omega) _ _ _ _ hd]
          | error e =>
            simp only [hps]
            by_cases hbudget : ec + 1 ≥ me
            · rw [if_pos hbudget, if_pos hbudget]
            · rw [if_neg hbudget, if_neg hbudget,
                ih n (by omega) _ _ _ _ (by omega), ih k (by omega) _ _ _ _ hd]

lemma validFrameB_spec (f : List Nat) (h : validFrameB f = true) :
    MIN_MESSAGE_SIZE ≤ f.length ∧ f.length ≤ MAX_MESSAGE_SIZE ∧ readU32BE f = f.length ∧
      parseSingleMessageR f = .ok (some (msgOfFrame f)) := by
  simp only [validFrameB, Bool.and_eq_true, decide_eq_true_eq] at h
  obtain ⟨⟨⟨h1, h2⟩, h3⟩, h4⟩ := h
  refine ⟨h1, h2, h3, ?_⟩
  unfold msgOfFrame
  unfold decodeFrameR at h4 ⊢
  cases hps : parseSingleMessageR f with
  | ok om =>
    cases om with
    | some m => simp [hps]
    | none => rw [hps] at h4; simp at h4
  | error e => rw [hps] at h4; simp at h4

lemma parseLoopR_frame_step (f rest : List Nat) (m : Msg) (ec me fuel : Nat) (acc : List Msg)
    (h16 : MIN_MESSAGE_SIZE ≤ f.length) (hMax : f.length ≤ MAX_MESSAGE_SIZE)
    (hread : readU32BE f = f.length) (hmsg : parseSingleMessageR f = .ok (some m)) :
    parseLoopR (fuel + 1) (f ++ rest) ec me acc = parseLoopR fuel rest ec me (acc ++ [m]) := by
  have hlen : (f ++ rest).length = f.length + rest.length := List.length_append f rest
  have hreadA : readU32BE (f ++ rest) = f.length := by
    rw [readU32BE_append f rest (by simp [MIN_MESSAGE_SIZE] at h16; omega), hread]
  rw [parseLoopR]
  rw [if_neg (by simp only [MIN_MESSAGE_SIZE] at *; omega)]
  rw [if_neg (by rw [hreadA]; omega)]
  rw [if_neg (by rw [hreadA]; omega)]
  have htake : (f ++ rest).take (readU32BE (f ++ rest)) = f := by
    rw [hreadA, List.take_left]
  have hdrop : (f ++ rest).drop (readU32BE (f ++ rest)) = rest := by
    rw [hreadA, List.drop_left]
  rw [htake, hdrop]
  simp only [hmsg]

lemma parseLoopR_frames (fs : List (List Nat)) :
    ∀ (rest : List Nat) (ec me fuel : Nat) (acc : List Msg),
    (∀ f ∈ fs, validFrameB f = true) → waiting rest →
    (fs.flatten ++ rest).length ≤ fuel →
    parseLoopR fuel (fs.flatten ++ rest) ec me acc =
      .ok (acc ++ fs.map msgOfFrame, rest, ec) := by
  induction fs with
  | nil =>
    intro rest ec me fuel acc _ hw _
    simp only [List.flatten_nil, List.nil_append, List.map_nil, List.append_nil]
    exact parseLoopR_waiting rest hw fuel ec me acc
  | cons f fs ihf =>
    intro rest ec me fuel acc hval hw hfuel
    obtain ⟨h1, h2, h3, h4⟩ := validFrameB_spec f (hval f (by simp))
    have hfl : (f :: fs).flatten = f ++ fs.flatten := rfl
    rw [hfl, List.append_assoc] at hfuel ⊢
    obtain ⟨n, hn⟩ : ∃ n, fuel = n + 1 := by
      refine ⟨fuel - 1, ?_⟩
      simp only [List.length_append, MIN_MESSAGE_SIZE] at hfuel h1
      omega
    subst hn
    rw [parseLoopR_frame_step f (fs.flatten ++ rest) (msgOfFrame f) ec me n acc h1 h2 h3 h4]
    rw [ihf rest ec me n (acc ++ [msgOfFrame f]) (fun g hg => hval g (by simp [hg])) hw
      (by simp only [List.length_append] at hfuel ⊢; simp only [MIN_MESSAGE_SIZE] at h1; omega)]
    simp

lemma readI32E_append (bs t : List Nat) (h : 4 ≤ bs.length) :
    readI32E (bs ++ t) = readI32E bs := by
  unfold readI32E
  rw [List.getD_append (h := by omega), List.getD_append (h := by omega),
    List.getD_append (h := by omega), List.getD_append (h := by omega)]

lemma readI64E_append (bs t : List Nat) (h : bs.length = 8) :
    readI64E (bs ++ t) = readI64E bs := by
  unfold readI64E
  rw [readI32E_append bs t (by omega)]
  rw [List.drop_append_of_le_length (by omega)]
  rw [readI32E_append (bs.drop 4) t (by simp [List.length_drop]; omega)]

lemma readU16E_cons (a b : Nat) (t : List Nat) : readU16E (a :: b :: t) = a * 2 ^ 8 + b := rfl

lemma parseHeadersLoopE_step (h : HdrSpec) (rest : List Nat) (acc : HeadersE) (fuel : Nat)
    (hwf : wfHVSpec h.v) :
    parseHeadersLoopE (fuel + 1) (encodeHdrE h ++ rest) acc =
      parseHeadersLoopE fuel rest (setKeyP acc h.name (hvsTag h.v, hvsVal h.v)) := by
  have hcons : encodeHdrE h ++ rest =
      h.name.length :: (h.name ++ (hvsTag h.v :: (hvsWire h.v ++ rest))) := by
    unfold encodeHdrE
    simp [List.append_assoc]
  rw [hcons, parseHeadersLoopE]
  simp only [List.take_left, List.drop_left]
  cases hv : h.v with
  | vtrue => simp only [hvsTag, hvsWire, hvsVal, List.nil_append]
  | vfalse => simp only [hvsTag, hvsWire, hvsVal, List.nil_append]
  | byte b => simp only [hvsTag, hvsWire, hvsVal, List.cons_append, List.nil_append,
      List.getD_cons_zero, List.drop_succ_cons, List.drop_zero]
  | short a b =>
    simp only [hvsTag, hvsWire, hvsVal, List.cons_append, List.nil_append,
      readU16E_cons, List.drop_succ_cons, List.drop_zero]
    norm_cast
  | int a b c d =>
    simp only [hvsTag, hvsWire, hvsVal, List.cons_append, List.nil_append,
      List.drop_succ_cons, List.drop_zero]
    have hr : readI32E (a :: b :: c :: d :: rest) = readI32E [a, b, c, d] := rfl
    rw [hr]
  | long bs =>
    simp only [wfHVSpec, hv] at hwf
    simp only [hvsTag, hvsWire, hvsVal]
    rw [readI64E_append bs rest hwf]
    rw [List.drop_left' hwf]
  | blob bs =>
    simp only [hvsTag, hvsWire, hvsVal, List.cons_append, readU16E_cons,
      List.drop_succ_cons, List.drop_zero]
    have hlen : bs.length / 256 * 2 ^ 8 + bs.length % 256 = bs.length := by
      have := Nat.div_add_mod bs.length 256
      omega
    rw [hlen, List.take_left, List.drop_left]
  | strv bs =>
    simp only [hvsTag, hvsWire, hvsVal, List.cons_append, readU16E_cons,
      List.drop_succ_cons, List.drop_zero]
    have hlen : bs.length / 256 * 2 ^ 8 + bs.length % 256 = bs.length := by
      have := Nat.div_add_mod bs.length 256
      omega
    rw [hlen, List.take_left, List.drop_left]
  | time bs =>
    simp only [wfHVSpec, hv] at hwf
    simp only [hvsTag, hvsWire, hvsVal]
    rw [readI64E_append bs rest hwf]
    rw [List.drop_left' hwf]
  | uuidv bs =>
    simp only [wfHVSpec, hv] at hwf
    simp only [hvsTag, hvsWire, hvsVal]
    rw [List.take_left' hwf, List.drop_left' hwf]

lemma parseHeadersLoopE_encode (hs : List HdrSpec) : ∀ (acc : HeadersE) (fuel : Nat),
    (∀ h ∈ hs, wfHVSpec h.v) → hs.length ≤ fuel →
    parseHeadersLoopE fuel (encodeHdrsE hs) acc = .ok (expectedHdrsE acc hs) := by
  induction hs with
  | nil =>
    intro acc fuel _ _
    cases fuel <;> rfl
  | cons h t iht =>
    intro acc fuel hwf hfuel
    obtain ⟨m, hm⟩ : ∃ m, fuel = m + 1 := ⟨fuel - 1, by simp at hfuel; omega⟩
    subst hm
    have henc : encodeHdrsE (h :: t) = encodeHdrE h ++ encodeHdrsE t := by
      unfold encodeHdrsE
      simp
    rw [henc, parseHeadersLoopE_step h _ acc m (hwf h (by simp))]
    rw [iht _ m (fun g hg => hwf g (by simp [hg])) (by simp at hfuel; omega)]
    rfl

lemma encodeHdrsE_length_ge (hs : List HdrSpec) : hs.length ≤ (encodeHdrsE hs).length := by
  induction hs with
  | nil => simp [encodeHdrsE]
  | cons h t iht =>
    have henc : encodeHdrsE (h :: t) = encodeHdrE h ++ encodeHdrsE t := by
      unfold encodeHdrsE
      simp
    rw [henc, List.length_append]
    unfold encodeHdrE
    simp only [List.length_cons]
    omega

lemma parseHeadersLoopR_step (h : HdrSpecR) (rest : List Nat) (acc : Headers) (fuel : Nat)
    (hv : parseHeaderValueR h.tag h.value = .ok h.interp) :
    parseHeadersLoopR (fuel + 1) (encodeHdrR h ++ rest) acc =
      parseHeadersLoopR fuel rest (setKey acc h.name h.interp) := by
  have hcons : encodeHdrR h ++ rest =
      h.name.length :: (h.name ++
        (h.tag :: h.value.length / 256 :: h.value.length % 256 :: (h.value ++ rest))) := by
    unfold encodeHdrR
    simp [List.append_assoc]
  rw [hcons, parseHeadersLoopR]
  rw [if_neg (by simp)]
  simp only [List.take_left, List.drop_left]
  rw [if_neg (by simp)]
  have hlen : readU16BE (h.value.length / 256 :: h.value.length % 256 :: (h.value ++ rest)) =
      h.value.length := by
    unfold readU16BE
    simp only [List.getD_cons_zero, List.getD_cons_succ]
    have := Nat.div_add_mod h.value.length 256
    omega
  simp only [hlen, List.drop_succ_cons, List.drop_zero]
  rw [if_neg (by simp)]
  rw [List.take_left, List.drop_left]
  simp only [hv]

lemma parseHeadersLoopR_encode (hs : List HdrSpecR) : ∀ (acc : Headers) (fuel : Nat),
    (∀ h ∈ hs, parseHeaderValueR h.tag h.value = .ok h.interp) → hs.length ≤ fuel →
    parseHeadersLoopR fuel (encodeHdrsR hs) acc = .ok (expectedHdrsR acc hs) := by
  induction hs with
  | nil =>
    intro acc fuel _ _
    cases fuel <;> rfl
  | cons h t iht =>
    intro acc fuel hval hfuel
    obtain ⟨m, hm⟩ : ∃ m, fuel = m + 1 := ⟨fuel - 1, by simp at hfuel; omega⟩
    subst hm
    have henc : encodeHdrsR (h :: t) = encodeHdrR h ++ encodeHdrsR t := by
      unfold encodeHdrsR
      simp
    rw [henc, parseHeadersLoopR_step h _ acc m (hval h (by simp))]
    rw [iht _ m (fun g hg => hval g (by simp [hg])) (by simp at hfuel; omega)]
    rfl

lemma encodeHdrsR_length_ge (hs : List HdrSpecR) : hs.length ≤ (encodeHdrsR hs).length := by
  induction hs with
  | nil => simp [encodeHdrsR]
  | cons h t iht =>
    have henc : encodeHdrsR (h :: t) = encodeHdrR h ++ encodeHdrsR t := by
      unfold encodeHdrsR
      simp
    rw [henc, List.length_append]
    unfold encodeHdrR
    simp only [List.length_cons]
    omega

lemma frameDecomp (gs : List (List Nat)) :
    ∀ (P Q : List Nat), P ++ Q = gs.flatten →
    ∃ gs1 gs2 p, gs = gs1 ++ gs2 ∧ P = gs1.flatten ++ p ∧ pendingPrefix p gs2 := by
  induction gs with
  | nil =>
    intro P Q h
    have hP : P = [] := by
      have hl := congrArg List.length h
      simp only [List.length_append, List.flatten_nil, List.length_nil] at hl
      exact List.eq_nil_of_length_eq_zero (by omega)
    exact ⟨[], [], [], rfl, by simp [hP], Or.inl rfl⟩
  | cons g gs ihg =>
    intro P Q h
    have hfl : (g :: gs).flatten = g ++ gs.flatten := rfl
    rw [hfl] at h
    by_cases hlt : P.length < g.length
    · refine ⟨[], g :: gs, P, rfl, by simp, ?_⟩
      by_cases hP : P = []
      · exact Or.inl hP
      · right
        have hPt : P = g.take P.length := by
          have ht := congrArg (List.take P.length) h
          rw [List.take_append_of_le_length (by omega),
            List.take_append_of_le_length (by omega), List.take_length] at ht
          exact ht
        refine ⟨g, gs, g.drop P.length, rfl, ?_, ?_⟩
        · intro hq
          have hl := congrArg List.length hq
          simp only [List.length_drop, List.length_nil] at hl
          omega
        · have htd : g.take P.length ++ g.drop P.length = g := List.take_append_drop _ _
          rw [← hPt] at htd
          exact htd
    · push_neg at hlt
      have hPg : P.take g.length = g := by
        have ht := congrArg (List.take g.length) h
        rw [List.take_append_of_le_length hlt, List.take_left] at ht
        exact ht
      have hP : P = g ++ P.drop g.length := by
        conv_lhs => rw [← List.take_append_drop g.length P]
        rw [hPg]
      have h' : P.drop g.length ++ Q = gs.flatten := by
        have hx : g ++ (P.drop g.length ++ Q) = g ++ gs.flatten := by
          rw [← List.append_assoc, ← hP, h]
        exact List.append_cancel_left hx
      obtain ⟨gs1, gs2, p, hgs, hP2, hpend⟩ := ihg (P.drop g.length) Q h'
      refine ⟨g :: gs1, gs2, p, by simp [hgs], ?_, hpend⟩
      rw [hP, hP2]
      simp [List.append_assoc]

lemma waiting_of_pending (p : List Nat) (gs : List (List Nat))
    (hval : ∀ g ∈ gs, validFrameB g = true) (hp : pendingPrefix p gs) : waiting p := by
  rcases hp with rfl | ⟨g, gs', q, rfl, hq, hpq⟩
  · left; simp [MIN_MESSAGE_SIZE]
  · obtain ⟨h1, h2, h3, _⟩ := validFrameB_spec g (hval g (by simp))
    by_cases hshort : p.length < MIN_MESSAGE_SIZE
    · exact Or.inl hshort
    · right
      have h4 : 4 ≤ p.length := by
        simp only [MIN_MESSAGE_SIZE, Nat.not_lt] at hshort
        omega
      have hrp : readU32BE p = p.length + q.length := by
        rw [← hpq, readU32BE_append p q h4] at h3
        simpa using h3
      have hql : 1 ≤ q.length := by
        cases q with
        | nil => exact absurd rfl hq
        | cons a as => simp
      have hgl : g.length = p.length + q.length := by
        rw [← hpq]; simp
      rw [hgl] at h1 h2
      exact ⟨by rw [hrp]; exact h1, by rw [hrp]; exact h2, by rw [hrp]; omega⟩

lemma runChunks_aligned (cs : List (List Nat)) :
    ∀ (gs : List (List Nat)) (p : List Nat) (me : Nat),
    (∀ g ∈ gs, validFrameB g = true) →
    p ++ cs.flatten = gs.flatten →
    pendingPrefix p gs →
    runChunks ⟨p, 0, me⟩ cs = .ok (gs.map msgOfFrame, ⟨[], 0, me⟩) := by
  induction cs with
  | nil =>
    intro gs p me hval hsplit hpend
    simp only [List.flatten_nil, List.append_nil] at hsplit
    rcases hpend with rfl | ⟨g, gs', q, rfl, hq, hpq⟩
    · cases gs with
      | nil => rfl
      | cons g gs' =>
        exfalso
        obtain ⟨h1, _, _, _⟩ := validFrameB_spec g (hval g (by simp))
        have hl := congrArg List.length hsplit
        simp only [List.length_nil, List.flatten_cons, List.length_append] at hl
        simp only [MIN_MESSAGE_SIZE] at h1
        omega
    · exfalso
      have hlen1 := congrArg List.length hsplit
      have hlen2 := congrArg List.length hpq
      simp only [List.flatten_cons, List.length_append] at hlen1 hlen2
      have hql : 1 ≤ q.length := by
        cases q with
        | nil => exact absurd rfl hq
        | cons a as => simp
      omega
  | cons c cs ihc =>
    intro gs p me hval hsplit hpend
    have hPQ : (p ++ c) ++ cs.flatten = gs.flatten := by
      rw [List.append_assoc]
      rw [show (c :: cs).flatten = c ++ cs.flatten from rfl] at hsplit
      rw [← List.append_assoc] at hsplit
      rw [List.append_assoc] at hsplit
      exact hsplit
    obtain ⟨gs1, gs2, p', hgs, hP, hpend'⟩ := frameDecomp gs (p ++ c) cs.flatten hPQ
    subst hgs
    have hval1 : ∀ f ∈ gs1, validFrameB f = true := fun f hf => hval f (by simp [hf])
    have hval2 : ∀ f ∈ gs2, validFrameB f = true := fun f hf => hval f (by simp [hf])
    have hw : waiting p' := waiting_of_pending p' gs2 hval2 hpend'
    have hps : parseStreamR ⟨p, 0, me⟩ c = .ok (gs1.map msgOfFrame, ⟨p', 0, me⟩) := by
      unfold parseStreamR
      simp only []
      rw [show (⟨p, 0, me⟩ : RState).buffer ++ c = gs1.flatten ++ p' from hP]
      rw [parseLoopR_frames gs1 p' 0 me _ [] hval1 hw (le_refl _)]
      rfl
    have hsplit' : p' ++ cs.flatten = gs2.flatten := by
      have hx : gs1.flatten ++ (p' ++ cs.flatten) = gs1.flatten ++ gs2.flatten := by
        rw [← List.append_assoc, ← hP, hPQ]
        simp [List.flatten_append]
      exact List.append_cancel_left hx
    simp only [runChunks, hps]
    rw [ihc gs2 p' me hval2 hsplit' hpend']
    simp

lemma readU32BE_replicate_zero (n : Nat) : readU32BE (List.replicate n 0) = 0 := by
  have h : ∀ i, (List.replicate n (0 : Nat)).getD i 0 = 0 := by
    intro i
    rcases Nat.lt_or_ge i n with hi | hi
    · rw [List.getD_eq_getElem _ _ (by simpa using hi)]
      simp
    · rw [List.getD_eq_default _ _ (by simpa using hi)]
  unfold readU32BE
  rw [h 0, h 1, h 2, h 3]
  simp

lemma parseLoopR_zeros (fuel : Nat) : ∀ (n ec me : Nat) (acc : List Msg),
    n ≤ fuel → 15 ≤ n →
    parseLoopR fuel (List.replicate n 0) ec me acc =
      .ok (acc, List.replicate 15 0, ec + (n - 15)) := by
  induction fuel with
  | zero => intro n ec me acc h1 h2; omega
  | succ m ih =>
    intro n ec me acc h1 h2
    by_cases hn : n < 16
    · have h15 : n = 15 := by omega
      subst h15
      rw [parseLoopR_waiting _ (Or.inl (by simp [MIN_MESSAGE_SIZE]))]
      simp
    · rw [parseLoopR]
      rw [if_neg (by simp [MIN_MESSAGE_SIZE]; omega)]
      rw [if_pos (by rw [readU32BE_replicate_zero]; simp [MIN_MESSAGE_SIZE])]
      rw [List.drop_replicate]
      rw [ih (n - 1) (ec + 1) me acc (by omega) (by omega)]
      have heq : ec + 1 + (n - 1 - 15) = ec + (n - 15) := by omega
      rw [heq]

lemma frameMax_length : frameMax.length = MAX_MESSAGE_SIZE := by
  rw [frameMax, List.length_append, List.length_append, List.length_replicate]
  norm_num [MAX_MESSAGE_SIZE]

lemma readU32BE_cons (a b c d : Nat) (t : List Nat) :
    readU32BE (a :: b :: c :: d :: t) = a * 2 ^ 24 + b * 2 ^ 16 + c * 2 ^ 8 + d := by
  unfold readU32BE
  rfl

lemma frameMax_read : readU32BE frameMax = MAX_MESSAGE_SIZE := by
  have h : frameMax = 1 :: 0 :: 0 :: 0 ::
      ([0, 0, 0, 0, 0, 0, 0, 0] ++ (List.replicate (MAX_MESSAGE_SIZE - 16) 0 ++ [0, 0, 0, 0])) :=
    rfl
  rw [h, readU32BE_cons]
  norm_num [MAX_MESSAGE_SIZE]

lemma frameMax_read4 : readU32BE (frameMax.drop 4) = 0 := by
  have h : frameMax.drop 4 = 0 :: 0 :: 0 :: 0 ::
      ([0, 0, 0, 0] ++ (List.replicate (MAX_MESSAGE_SIZE - 16) 0 ++ [0, 0, 0, 0])) :=
    rfl
  rw [h, readU32BE_cons]
  norm_num

lemma frameMax_payload :
    (frameMax.take (MAX_MESSAGE_SIZE - 4)).drop 12 =
      List.replicate (MAX_MESSAGE_SIZE - 16) 0 := by
  unfold frameMax
  rw [← List.append_assoc]
  have h12 : ([1, 0, 0, 0, 0, 0, 0, 0, 0, 0, 0, 0] : List Nat).length = 12 := rfl
  rw [List.take_left' (by
    rw [List.length_append, List.length_replicate, h12]
    norm_num [MAX_MESSAGE_SIZE])]
  rw [← h12, List.drop_left]

lemma frameMax_msg : parseSingleMessageR frameMax = .ok (some msgMax) := by
  unfold parseSingleMessageR
  rw [if_neg (by rw [frameMax_length]; simp [MIN_MESSAGE_SIZE, MAX_MESSAGE_SIZE])]
  simp only [frameMax_read, frameMax_length, frameMax_read4]
  rw [if_neg (by simp)]
  rw [List.take_zero, frameMax_payload]
  rfl

lemma parseStreamR_eq_ok (st : RState) (data : List Nat) (msgs : List Msg)
    (buf : List Nat) (ec : Nat)
    (h : parseLoopR (st.buffer ++ data).length (st.buffer ++ data)
      st.errorCount st.maxErrors [] = .ok (msgs, buf, ec)) :
    parseStreamR st data = .ok (msgs, ⟨buf, ec, st.maxErrors⟩) := by
  unfold parseStreamR
  simp only [h]

lemma decodeFrameR_ok (f : List Nat) (m : Msg) (h : parseSingleMessageR f = .ok (some m)) :
    decodeFrameR f = some m := by
  unfold decodeFrameR
  rw [h]

lemma msgOfFrame_ok (f : List Nat) (m : Msg) (h : parseSingleMessageR f = .ok (some m)) :
    msgOfFrame f = m := by
  unfold msgOfFrame
  rw [decodeFrameR_ok f m h]
  rfl

lemma validFrameB_intro (f : List Nat) (m : Msg)
    (h1 : MIN_MESSAGE_SIZE ≤ f.length) (h2 : f.length ≤ MAX_MESSAGE_SIZE)
    (h3 : readU32BE f = f.length) (h4 : parseSingleMessageR f = .ok (some m)) :
    validFrameB f = true := by
  simp only [validFrameB, Bool.and_eq_true, decide_eq_true_eq]
  refine ⟨⟨⟨h1, h2⟩, h3⟩, ?_⟩
  rw [decodeFrameR_ok f m h4]
  rfl

/-! ## Properties of the OpenAI stream projector -/

lemma processMessage_CLE (st : OState) (p : Json)
    (h : isContentLenExceeded (eventOf p) = true) :
    processMessage st p =
      ({ st with forcedFinishReason := some "length" },
       [.finalChunk "length", .done], true) := by
  unfold processMessage
  rw [if_pos h]

lemma processChunks_term_append (jp : List Nat → Option Json) :
    ∀ (cs : List (List Nat)) (st : OState) (extra : List (List Nat)),
    (processChunks jp st cs).2.2.1 = true →
    processChunks jp st (cs ++ extra) = processChunks jp st cs := by
  intro cs
  induction cs with
  | nil =>
    intro st extra h
    simp [processChunks] at h
  | cons c cs ih =>
    intro st extra h
    rw [List.cons_append]
    rw [processChunks] at h
    rw [processChunks, processChunks]
    cases hps : parseStreamR st.parser c with
    | error e =>
      simp [hps] at h
    | ok pr =>
      obtain ⟨msgs, pstate⟩ := pr
      rw [hps] at h
      simp only [] at h ⊢
      rcases hpm : processMessages jp { st with parser := pstate } msgs with ⟨st1, recs, term⟩
      rw [hpm] at h
      simp only [] at h ⊢
      cases term with
      | true => rfl
      | false =>
        simp only [Bool.false_eq_true, if_false] at h ⊢
        rw [ih st1 extra h]

lemma fullRun_term_append (jp : List Nat → Option Json) (pre extra : List (List Nat))
    (h : (processChunks jp OState.init pre).2.2.1 = true) :
    fullRun jp (pre ++ extra) = fullRun jp pre := by
  unfold fullRun
  rw [processChunks_term_append jp pre OState.init extra h]

lemma processMessage_not_cle (st : OState) (p : Json)
    (hc : isContentLenExceeded (eventOf p) = false) :
    (processMessage st p).1.forcedFinishReason = st.forcedFinishReason ∧
    (processMessage st p).2.2 = false := by
  unfold processMessage
  simp only [hc, Bool.false_eq_true, if_false]
  constructor
  · split
    · split <;> simp
    · rfl
  · split <;> rfl

lemma processMessage_term_only_cle (st : OState) (p : Json)
    (h : (processMessage st p).2.2 = true) :
    isContentLenExceeded (eventOf p) = true := by
  by_cases hc : isContentLenExceeded (eventOf p) = true
  · exact hc
  · simp only [Bool.not_eq_true] at hc
    rw [(processMessage_not_cle st p hc).2] at h
    exact Bool.noConfusion h

lemma processMessage_forced (st : OState) (p : Json) (st1 : OState) (recs : List OutRec)
    (hpm : processMessage st p = (st1, recs, false)) :
    st1.forcedFinishReason = st.forcedFinishReason := by
  have hc : isContentLenExceeded (eventOf p) = false := by
    by_cases hc : isContentLenExceeded (eventOf p) = true
    · rw [processMessage_CLE st p hc] at hpm
      exact absurd (congrArg (fun t => t.2.2) hpm) (by simp)
    · simpa using hc
  have := (processMessage_not_cle st p hc).1
  rw [hpm] at this
  exact this

lemma processMessages_forced (jp : List Nat → Option Json) :
    ∀ (msgs : List Msg) (st : OState), (processMessages jp st msgs).2.2 = false →
    (processMessages jp st msgs).1.forcedFinishReason = st.forcedFinishReason := by
  intro msgs
  induction msgs with
  | nil => intro st _; rfl
  | cons m ms ih =>
    intro st h
    rw [processMessages] at h ⊢
    cases hjp : jp m.payload with
    | none =>
      rw [hjp] at h
      exact ih st h
    | some payload =>
      rw [hjp] at h
      simp only [] at h ⊢
      rcases hpm : processMessage st payload with ⟨st1, recs, term⟩
      rw [hpm] at h
      simp only [] at h ⊢
      cases term with
      | true => simp at h
      | false =>
        simp only [Bool.false_eq_true, if_false] at h ⊢
        rcases hq : processMessages jp st1 ms with ⟨st2, recs2, term2⟩
        rw [hq] at h
        simp only [] at h ⊢
        have hih := ih st1
        rw [hq] at hih
        simp only [] at hih
        rw [hih h, processMessage_forced st payload st1 recs hpm]

lemma processChunks_forced (jp : List Nat → Option Json) :
    ∀ (cs : List (List Nat)) (st : OState), (processChunks jp st cs).2.2.1 = false →
    (processChunks jp st cs).1.forcedFinishReason = st.forcedFinishReason := by
  intro cs
  induction cs with
  | nil => intro st _; rfl
  | cons c cs ih =>
    intro st h
    rw [processChunks] at h ⊢
    cases hps : parseStreamR st.parser c with
    | error e =>
      rfl
    | ok pr =>
      obtain ⟨msgs, pstate⟩ := pr
      rw [hps] at h
      simp only [] at h ⊢
      rcases hpm : processMessages jp { st with parser := pstate } msgs with ⟨st1, recs, term⟩
      rw [hpm] at h
      simp only [] at h ⊢
      cases term with
      | true => simp at h
      | false =>
        simp only [Bool.false_eq_true, if_false] at h ⊢
        have h1 : st1.forcedFinishReason = st.forcedFinishReason := by
          have hm := processMessages_forced jp msgs { st with parser := pstate }
          rw [hpm] at hm
          exact hm rfl
        rw [ih st1 (by simpa using h), h1]

lemma processMessage_no_errorChunk (st : OState) (p : Json) :
    OutRec.errorChunk ∉ (processMessage st p).2.1 := by
  unfold processMessage
  by_cases hc : isContentLenExceeded (eventOf p) = true
  · simp [hc]
  · simp only [Bool.not_eq_true] at hc
    simp only [hc, Bool.false_eq_true, if_false]
    split
    · split <;> split <;> (try split) <;> simp
    · split <;> simp

lemma processMessages_no_errorChunk (jp : List Nat → Option Json) :
    ∀ (msgs : List Msg) (st : OState),
    OutRec.errorChunk ∉ (processMessages jp st msgs).2.1 := by
  intro msgs
  induction msgs with
  | nil => intro st; simp [processMessages]
  | cons m ms ih =>
    intro st
    rw [processMessages]
    cases hjp : jp m.payload with
    | none => exact ih st
    | some payload =>
      simp only []
      rcases hpm : processMessage st payload with ⟨st1, recs, term⟩
      simp only []
      have hrecs : OutRec.errorChunk ∉ recs := by
        have := processMessage_no_errorChunk st payload
        rw [hpm] at this
        exact this
      cases term with
      | true => simpa using hrecs
      | false =>
        simp only [Bool.false_eq_true, if_false]
        rcases hq : processMessages jp st1 ms with ⟨st2, recs2, term2⟩
        simp only [List.mem_append]
        intro hmem
        rcases hmem with hmem | hmem
        · exact hrecs hmem
        · have := ih st1
          rw [hq] at this
          exact this hmem

lemma processChunks_no_errorChunk (jp : List Nat → Option Json) :
    ∀ (cs : List (List Nat)) (st : OState),
    OutRec.errorChunk ∉ (processChunks jp st cs).2.1 := by
  intro cs
  induction cs with
  | nil => intro st; simp [processChunks]
  | cons c cs ih =>
    intro st
    rw [processChunks]
    cases hps : parseStreamR st.parser c with
    | error e => simp
    | ok pr =>
      obtain ⟨msgs, pstate⟩ := pr
      simp only []
      rcases hpm : processMessages jp { st with parser := pstate } msgs with ⟨st1, recs, term⟩
      simp only []
      have hrecs : OutRec.errorChunk ∉ recs := by
        have := processMessages_no_errorChunk jp msgs { st with parser := pstate }
        rw [hpm] at this
        exact this
      cases term with
      | true => simpa using hrecs
      | false =>
        simp only [Bool.false_eq_true, if_false, List.mem_append]
        intro hmem
        rcases hmem with hmem | hmem
        · exact hrecs hmem
        · exact ih st1 hmem

lemma processMessage_ignored (st : OState) (payload : Json)
    (hc : isContentLenExceeded (eventOf payload) = false)
    (hcontent : fieldTruthy (eventOf payload) "content" = false)
    (htool : (fieldTruthy (eventOf payload) "toolUseId" &&
      fieldTruthy (eventOf payload) "name") = false) :
    processMessage st payload = (st, [], false) := by
  unfold processMessage
  simp only [hc, Bool.false_eq_true, if_false, htool, hcontent]

lemma fullRun_no_errorChunk (jp : List Nat → Option Json) (chunks : List (List Nat)) :
    OutRec.errorChunk ∉ fullRun jp chunks := by
  have h := processChunks_no_errorChunk jp chunks OState.init
  unfold fullRun
  rcases hq : processChunks jp OState.init chunks with ⟨st2, recs2, term2, err2⟩
  rw [hq] at h
  simp only [] at h ⊢
  cases err2 <;> simp_all

/-! ## Properties of the token pool -/

lemma addSet_self (s : List Nat) (i : Nat) : i ∈ addSet s i := by
  unfold addSet
  split
  · assumption
  · simp

lemma addSet_mem (s : List Nat) (i j : Nat) (h : i ∈ s) : i ∈ addSet s j := by
  unfold addSet
  split
  · exact h
  · simp [h]

lemma selectLoop_exhausted_mono
    (oracle : Nat → List (Nat × Int) → Except Unit (List (Nat × Int))) (n : Nat) :
    ∀ (fuel : Nat) (st : PoolState) (i : Nat), i ∈ st.exhausted →
    i ∈ (selectLoop oracle n fuel st).1.exhausted := by
  intro fuel
  induction fuel with
  | zero => intro st i h; exact h
  | succ attempt ih =>
    intro st i h
    rw [selectLoop]
    simp only []
    split
    · exact ih _ i (addSet_mem st.exhausted i st.currentIndex h)
    · split
      next e => exact ih _ i (addSet_mem st.exhausted i st.currentIndex h)
      next cache1 =>
        split
        next => exact ih _ i (addSet_mem st.exhausted i st.currentIndex h)
        next avail => split <;> simpa using h

lemma selectLoop_exhausted_step
    (oracle : Nat → List (Nat × Int) → Except Unit (List (Nat × Int))) (n : Nat)
    (attempt : Nat) (st : PoolState) (a : Int)
    (hassoc : natAssoc st.cache st.currentIndex = some a) (ha : a ≤ 0) :
    selectLoop oracle n (attempt + 1) st =
      ((selectLoop oracle n attempt
          { st with exhausted := addSet st.exhausted st.currentIndex,
                    currentIndex := (st.currentIndex + 1) % n }).1,
       PoolAct.markExhausted st.currentIndex ::
         PoolAct.advance st.currentIndex ((st.currentIndex + 1) % n) ::
           (selectLoop oracle n attempt
             { st with exhausted := addSet st.exhausted st.currentIndex,
                       currentIndex := (st.currentIndex + 1) % n }).2.1,
       (selectLoop oracle n attempt
         { st with exhausted := addSet st.exhausted st.currentIndex,
                   currentIndex := (st.currentIndex + 1) % n }).2.2) := by
  rw [selectLoop]
  simp only [hassoc, decide_eq_true ha, if_true]

lemma selectLoop_decRetOK
    (oracle : Nat → List (Nat × Int) → Except Unit (List (Nat × Int))) (n : Nat) :
    ∀ (fuel : Nat) (st : PoolState), decRetOK (selectLoop oracle n fuel st).2.1 = true := by
  intro fuel
  induction fuel with
  | zero => intro st; rfl
  | succ attempt ih =>
    intro st
    rw [selectLoop]
    simp only []
    split
    · simpa [decRetOK] using ih { st with exhausted := addSet st.exhausted st.currentIndex, currentIndex := (st.currentIndex + 1) % n }
    · split
      next e =>
        simpa [decRetOK] using ih { st with exhausted := addSet st.exhausted st.currentIndex, currentIndex := (st.currentIndex + 1) % n }
      next cache1 heq1 =>
        split
        next =>
          simpa [decRetOK] using ih { st with cache := cache1, exhausted := addSet st.exhausted st.currentIndex, currentIndex := (st.currentIndex + 1) % n }
        next avail => split <;> simp [decRetOK]

/-! ## Properties of the single-flight refresh -/

lemma runGetOrRefresh_locked (tids : List Nat) :
    ∀ (st : SFState), st.cacheFresh = false → st.lock = true →
    runGetOrRefresh tids st = { st with waiters := st.waiters ++ tids } := by
  induction tids with
  | nil => intro st _ _; simp [runGetOrRefresh]
  | cons t ts ih =>
    intro st hfresh hlock
    rw [runGetOrRefresh, List.foldl_cons]
    have hstep : getOrRefreshStep st t = { st with waiters := st.waiters ++ [t] } := by
      unfold getOrRefreshStep
      rw [hfresh, hlock]
      simp
    rw [hstep, ← runGetOrRefresh]
    rw [ih { st with waiters := st.waiters ++ [t] } hfresh hlock]
    simp

/-! ## Claim theorems -/

/-- C1: for every byte sequence forming a valid frame stream (a concatenation
of frames the decoder accepts) and every partition of it into chunks, the
concatenation of the message lists returned by successive
`RobustEventStreamParser.parseStream` calls on the chunks equals the message
list returned by a single `parseStream` call on the whole sequence: both are
exactly the per-frame messages, with an empty residual buffer and no errors. -/
theorem C1_chunked_parse_equals_single (fs chunks : List (List Nat))
    (hval : ∀ f ∈ fs, validFrameB f = true)
    (hsplit : chunks.flatten = fs.flatten) :
    runChunks RState.init chunks = .ok (fs.map msgOfFrame, ⟨[], 0, 100⟩) ∧
    parseStreamR RState.init chunks.flatten = .ok (fs.map msgOfFrame, ⟨[], 0, 100⟩) := by
  constructor
  · exact runChunks_aligned chunks fs [] 100 hval (by simpa using hsplit) (Or.inl rfl)
  · unfold parseStreamR
    simp only [RState.init, List.nil_append]
    have hb : chunks.flatten = fs.flatten ++ [] := by rw [hsplit, List.append_nil]
    rw [hb, parseLoopR_frames fs [] 0 100 _ [] hval
      (Or.inl (by simp [MIN_MESSAGE_SIZE])) (le_refl _)]
    rfl

/-- Witness for C1 at a concrete input: the 16-byte minimal frame split into a
7-byte and a 9-byte chunk yields the same single message as the unsplit
parse. -/
theorem C1_chunked_parse_equals_single_witness :
    (∀ f ∈ [frame16], validFrameB f = true) ∧
    ([frame16.take 7, frame16.drop 7].flatten = [frame16].flatten) ∧
    (runChunks RState.init [frame16.take 7, frame16.drop 7] =
        .ok ([frame16].map msgOfFrame, ⟨[], 0, 100⟩) ∧
      parseStreamR RState.init [frame16.take 7, frame16.drop 7].flatten =
        .ok ([frame16].map msgOfFrame, ⟨[], 0, 100⟩)) :=
  ⟨by decide, by decide,
    C1_chunked_parse_equals_single [frame16] [frame16.take 7, frame16.drop 7]
      (by decide) (by decide)⟩

/-- C4 counterexample: with `maxErrors = 1`, seventeen zero bytes drive the
error count to 2 (two one-byte resyncs) — past the budget — yet `parseStream`
returns normally instead of failing the stream, because the resync path never
consults `maxErrors`. -/
theorem C4_counterexample :
    parseStreamR ⟨[], 0, 1⟩ (List.replicate 17 0) =
      .ok ([], ⟨List.replicate 15 0, 2, 1⟩) ∧ 1 < 2 := by
  decide

/-- C4 (amended): the decoder keeps a configurable `maxErrors` budget, but
one-byte resyncs on an out-of-range `total_length` increment the error count
without consulting it — a stream of zero preludes drives the count to any
height with the decoder still returning normally; only a per-message parse
failure checks the budget, and it fails the stream exactly when the
incremented count reaches `maxErrors`. -/
theorem C4_error_budget_amended (n me : Nat) (hn : 16 ≤ n) :
    (parseStreamR ⟨[], 0, me⟩ (List.replicate n 0) =
      .ok ([], ⟨List.replicate 15 0, n - 15, me⟩)) ∧
    (∀ (fuel ec : Nat) (buffer : List Nat) (acc : List Msg) (e : Unit),
      ¬ buffer.length < MIN_MESSAGE_SIZE →
      ¬ (readU32BE buffer < MIN_MESSAGE_SIZE ∨ readU32BE buffer > MAX_MESSAGE_SIZE) →
      ¬ buffer.length < readU32BE buffer →
      parseSingleMessageR (buffer.take (readU32BE buffer)) = .error e →
      ec + 1 ≥ me →
      parseLoopR (fuel + 1) buffer ec me acc = .error "Too many errors, stopping parse") := by
  constructor
  · unfold parseStreamR
    simp only [List.nil_append]
    rw [List.length_replicate, parseLoopR_zeros n n 0 me [] (le_refl n) (by omega)]
    simp
  · intro fuel ec buffer acc e hshort hrange hlen hfail hbudget
    rw [parseLoopR, if_neg hshort, if_neg hrange, if_neg hlen]
    simp only [hfail]
    rw [if_pos hbudget]

/-- Witness for the amended C4: 17 zero bytes against a budget of 1 exercise
the resync conjunct, and a 17-byte frame whose header value raises (tag 2
with a zero-length value) exercises the budget-failure conjunct. -/
theorem C4_error_budget_amended_witness :
    16 ≤ 17 ∧
    (parseStreamR ⟨[], 0, 1⟩ (List.replicate 17 0) =
      .ok ([], ⟨List.replicate 15 0, 2, 1⟩)) ∧
    parseLoopR 17 [0, 0, 0, 17, 0, 0, 0, 5, 0, 0, 0, 0, 1, 97, 2, 0, 0] 0 1 [] =
      .error "Too many errors, stopping parse" := by
  refine ⟨by decide, (C4_error_budget_amended 17 1 (by decide)).1, ?_⟩
  exact (C4_error_budget_amended 17 1 (by decide)).2 16 0
    [0, 0, 0, 17, 0, 0, 0, 5, 0, 0, 0, 0, 1, 97, 2, 0, 0] [] () (by decide) (by decide)
    (by decide) (by decide) (by decide)

/-- C2 counterexample: the claim fails on both cited decoders.  On the header
block `name_len=1, name="a", tag=9, 16 bytes`, `EventStreamParser.parseHeaders`
returns the raw 16-byte slice, not the canonical 8-4-4-4-12 hex rendering the
claim requires.  And on a block of two boolean headers laid out with zero
value bytes as the claim's wire encoding prescribes (`1,"a",0` then
`1,"b",0`), `RobustEventStreamParser.parseHeaders` — which reads a u16 value
length for EVERY tag — decodes no headers at all instead of two. -/
theorem C2_counterexample :
    (parseHeadersE [1, 97, 9, 0, 1, 2, 3, 4, 5, 6, 7, 8, 9, 10, 11, 12, 13, 14, 15] =
      .ok [(utf8 "a", 9, .bytes [0, 1, 2, 3, 4, 5, 6, 7, 8, 9, 10, 11, 12, 13, 14, 15])]) ∧
    (HVal.bytes [0, 1, 2, 3, 4, 5, 6, 7, 8, 9, 10, 11, 12, 13, 14, 15] ≠
      HVal.uuid (uuidHex [0, 1, 2, 3, 4, 5, 6, 7, 8, 9, 10, 11, 12, 13, 14, 15])) ∧
    (parseHeadersR [1, 97, 0, 1, 98, 0] = .ok []) := by
  decide

/-- C2 (amended): the two header decoders implement different wire schemes.
`EventStreamParser.parseHeaders` decodes each value by per-tag widths — tags
0/1 zero value bytes (true/false), tag 2 one byte, tag 3 two bytes BE, tag 4
four bytes BE (signed by the shift-based read), tag 5 and 8 eight bytes BE,
tags 6/7 a u16 length prefix plus that many bytes, tag 9 sixteen bytes
returned as the RAW byte slice (no hex rendering).
`RobustEventStreamParser.parseHeaders` instead reads a u16 value length after
the tag byte for EVERY tag and interprets that many value bytes by the tag,
rendering a 16-byte tag-9 value as canonical 8-4-4-4-12 hex. -/
theorem C2_header_wire_encodings_amended :
    (∀ hs : List HdrSpec, (∀ h ∈ hs, wfHVSpec h.v) →
      parseHeadersE (encodeHdrsE hs) = .ok (expectedHdrsE [] hs)) ∧
    (∀ hs : List HdrSpecR,
      (∀ h ∈ hs, parseHeaderValueR h.tag h.value = .ok h.interp) →
      parseHeadersLoopR (encodeHdrsR hs).length (encodeHdrsR hs) [] =
        .ok (expectedHdrsR [] hs)) ∧
    (∀ bs : List Nat, bs.length = 16 →
      parseHeaderValueR 9 bs = .ok (.uuid (uuidHex bs))) := by
  refine ⟨?_, ?_, ?_⟩
  · intro hs hwf
    exact parseHeadersLoopE_encode hs [] (encodeHdrsE hs).length hwf (encodeHdrsE_length_ge hs)
  · intro hs hval
    exact parseHeadersLoopR_encode hs [] (encodeHdrsR hs).length hval (encodeHdrsR_length_ge hs)
  · intro bs h16
    unfold parseHeaderValueR
    rw [if_pos h16]

/-- Witness for the amended C2: a block containing every tag decodes to the
expected map under the per-tag scheme, a robust-scheme block with a uuid value
decodes with the hex rendering, and the 16-byte rule fires on a concrete
uuid. -/
theorem C2_header_wire_encodings_amended_witness :
    (∀ h ∈ [⟨utf8 "a", .vtrue⟩, ⟨utf8 "b", .vfalse⟩, ⟨utf8 "c", .byte 5⟩,
        ⟨utf8 "d", .short 1 2⟩, ⟨utf8 "e", .int 255 0 0 1⟩,
        ⟨utf8 "f", .long [1, 2, 3, 4, 5, 6, 7, 8]⟩, ⟨utf8 "g", .blob [9, 9]⟩,
        ⟨utf8 "h", .strv [104, 105]⟩, ⟨utf8 "i", .time [0, 0, 0, 0, 0, 0, 1, 0]⟩,
        ⟨utf8 "j", (.uuidv [0, 1, 2, 3, 4, 5, 6, 7, 8, 9, 10, 11, 12, 13, 14, 15])⟩],
      wfHVSpec (HdrSpec.v h)) ∧
    parseHeadersE (encodeHdrsE [⟨utf8 "a", .vtrue⟩, ⟨utf8 "b", .vfalse⟩, ⟨utf8 "c", .byte 5⟩,
        ⟨utf8 "d", .short 1 2⟩, ⟨utf8 "e", .int 255 0 0 1⟩,
        ⟨utf8 "f", .long [1, 2, 3, 4, 5, 6, 7, 8]⟩, ⟨utf8 "g", .blob [9, 9]⟩,
        ⟨utf8 "h", .strv [104, 105]⟩, ⟨utf8 "i", .time [0, 0, 0, 0, 0, 0, 1, 0]⟩,
        ⟨utf8 "j", (.uuidv [0, 1, 2, 3, 4, 5, 6, 7, 8, 9, 10, 11, 12, 13, 14, 15])⟩]) =
      .ok (expectedHdrsE [] [⟨utf8 "a", .vtrue⟩, ⟨utf8 "b", .vfalse⟩, ⟨utf8 "c", .byte 5⟩,
        ⟨utf8 "d", .short 1 2⟩, ⟨utf8 "e", .int 255 0 0 1⟩,
        ⟨utf8 "f", .long [1, 2, 3, 4, 5, 6, 7, 8]⟩, ⟨utf8 "g", .blob [9, 9]⟩,
        ⟨utf8 "h", .strv [104, 105]⟩, ⟨utf8 "i", .time [0, 0, 0, 0, 0, 0, 1, 0]⟩,
        ⟨utf8 "j", (.uuidv [0, 1, 2, 3, 4, 5, 6, 7, 8, 9, 10, 11, 12, 13, 14, 15])⟩]) ∧
    ((16 : Nat) = 16 ∧ parseHeaderValueR 9 [0, 1, 2, 3, 4, 5, 6, 7, 8, 9, 10, 11, 12, 13, 14, 15] =
      .ok (.uuid (uuidHex [0, 1, 2, 3, 4, 5, 6, 7, 8, 9, 10, 11, 12, 13, 14, 15]))) := by
  refine ⟨by decide, ?_, rfl, ?_⟩
  · exact C2_header_wire_encodings_amended.1 _ (by decide)
  · exact C2_header_wire_encodings_amended.2.2
      [0, 1, 2, 3, 4, 5, 6, 7, 8, 9, 10, 11, 12, 13, 14, 15] (by decide)

/-- C9: a frame with `total_length = 16` is accepted and parsed as a message,
as is one with `total_length = 16·2^20`; a declared `total_length` of 15, or
of `16·2^20 + 1`, makes the decoder advance the buffer by exactly one byte and
count exactly one error. -/
theorem C9_total_length_boundaries :
    (parseStreamR RState.init frame16 = .ok ([msg16], ⟨[], 0, 100⟩)) ∧
    (parseStreamR RState.init buf15 =
      .ok ([], ⟨buf15.drop 1, 1, 100⟩)) ∧
    (parseStreamR RState.init bufMaxPlus1 =
      .ok ([], ⟨bufMaxPlus1.drop 1, 1, 100⟩)) ∧
    (parseStreamR RState.init frameMax = .ok ([msgMax], ⟨[], 0, 100⟩)) := by
  refine ⟨by decide, by decide, by decide, ?_⟩
  refine parseStreamR_eq_ok RState.init frameMax [msgMax] [] 0 ?_
  have hval1 : ∀ f ∈ [frameMax], validFrameB f = true := by
    intro f hf
    simp only [List.mem_singleton] at hf
    subst hf
    exact validFrameB_intro frameMax msgMax
      (by rw [frameMax_length]; norm_num [MIN_MESSAGE_SIZE, MAX_MESSAGE_SIZE])
      (by rw [frameMax_length])
      (by rw [frameMax_read, frameMax_length])
      frameMax_msg
  have hrun := parseLoopR_frames [frameMax] [] 0 100 frameMax.length [] hval1
    (Or.inl (by norm_num [MIN_MESSAGE_SIZE])) (by simp)
  simp only [List.flatten_cons, List.flatten_nil, List.append_nil, List.map_cons,
    List.map_nil, List.nil_append] at hrun
  rw [msgOfFrame_ok frameMax msgMax frameMax_msg] at hrun
  have hb : RState.init.buffer ++ frameMax = frameMax := rfl
  rw [hb]
  exact hrun

/-- C3: once a prefix of the upstream chunks makes the OpenAI stream processor
terminate, the total emitted output is identical whether or not any further
upstream chunks are delivered; the only event that sets `shouldTerminate` is a
`ContentLengthExceededException` event, and on such an event the processor
emits the terminal chunk with `finish_reason "length"` immediately followed by
the `data: [DONE]` record. -/
theorem C3_cle_prefix_independence (jp : List Nat → Option Json)
    (pre extra : List (List Nat))
    (hterm : (processChunks jp OState.init pre).2.2.1 = true) :
    fullRun jp (pre ++ extra) = fullRun jp pre ∧
    (∀ (st : OState) (payload : Json),
      isContentLenExceeded (eventOf payload) = true →
      processMessage st payload =
        ({ st with forcedFinishReason := some "length" },
         [.finalChunk "length", .done], true)) ∧
    (∀ (st : OState) (payload : Json),
      (processMessage st payload).2.2 = true →
      isContentLenExceeded (eventOf payload) = true) :=
  ⟨fullRun_term_append jp pre extra hterm,
   fun st payload h => processMessage_CLE st payload h,
   fun st payload h => processMessage_term_only_cle st payload h⟩

/-- Witness for C3 at a concrete input: a tool-use frame followed by a
`ContentLengthExceededException` frame terminates the processor, and delivering
a further frame after that prefix leaves the output unchanged. -/
theorem C3_cle_prefix_independence_witness :
    (processChunks jpFix OState.init [frameP 2, frameP 1]).2.2.1 = true ∧
    fullRun jpFix ([frameP 2, frameP 1] ++ [frameP 2]) =
      fullRun jpFix [frameP 2, frameP 1] :=
  ⟨by decide,
   (C3_cle_prefix_independence jpFix [frameP 2, frameP 1] [frameP 2] (by decide)).1⟩

/-- C5 counterexample: a stream with a tool-use event and then an exception
event of a non-ContentLength kind (`SomethingElse`).  The claim requires the
projection to terminate with `finish_reason "stop"` and an additional error
chunk; instead the exception event is silently ignored — no error chunk is
ever emitted (`errorChunk` is unreachable) and the finish reason is
`"tool_calls"`, not `"stop"`, because the normal end-of-stream path runs. -/
theorem C5_counterexample :
    fullRun jpFix [frameP 2, frameP 3] =
      [.initialChunk, .toolStart 0 (.str "t1") (.str "calc"),
       .finalChunk "tool_calls", .done] ∧
    OutRec.errorChunk ∉ fullRun jpFix [frameP 2, frameP 3] ∧
    ("tool_calls" : String) ≠ "stop" := by
  decide

/-- C5 (amended): an exception event whose kind is not a ContentLength kind is
ignored by the OpenAI projector — it emits no records, does not terminate the
stream, and leaves the state unchanged (provided the event carries no truthy
`content` or tool fields); the projector never emits an error chunk on any
input; and when the stream runs to completion without a CLE termination and
without a parser error, the output ends with the normal terminal chunk whose
finish reason is `"tool_calls"` when tool use was seen and `"stop"`
otherwise. -/
theorem C5_non_cle_exception_amended (jp : List Nat → Option Json)
    (chunks : List (List Nat)) :
    (∀ (st : OState) (payload : Json),
        isContentLenExceeded (eventOf payload) = false →
        fieldTruthy (eventOf payload) "content" = false →
        (fieldTruthy (eventOf payload) "toolUseId" &&
          fieldTruthy (eventOf payload) "name") = false →
        processMessage st payload = (st, [], false)) ∧
    OutRec.errorChunk ∉ fullRun jp chunks ∧
    ((processChunks jp OState.init chunks).2.2.1 = false →
      (processChunks jp OState.init chunks).2.2.2 = false →
      fullRun jp chunks =
        .initialChunk :: ((processChunks jp OState.init chunks).2.1 ++
          [.finalChunk (if (processChunks jp OState.init chunks).1.sawToolUse
            then "tool_calls" else "stop"), .done])) := by
  refine ⟨processMessage_ignored, fullRun_no_errorChunk jp chunks, ?_⟩
  intro hterm herr
  have hforced := processChunks_forced jp chunks OState.init hterm
  unfold fullRun
  rcases hq : processChunks jp OState.init chunks with ⟨st2, recs2, term2, err2⟩
  rw [hq] at hforced herr
  simp only [] at hforced herr ⊢
  rw [herr]
  simp only [Bool.false_eq_true, if_false]
  rw [hforced]
  rfl

/-- Witness for the amended C5: the `SomethingElse` exception payload is
ignored at a concrete state, the tool-then-exception stream contains no error
chunk, and its output ends with the normal `"tool_calls"` terminal chunk. -/
theorem C5_non_cle_exception_amended_witness :
    processMessage OState.init (.obj [("__type", .str "SomethingElse")]) =
      (OState.init, [], false) ∧
    OutRec.errorChunk ∉ fullRun jpFix [frameP 2, frameP 3] ∧
    fullRun jpFix [frameP 2, frameP 3] =
      .initialChunk :: ((processChunks jpFix OState.init [frameP 2, frameP 3]).2.1 ++
        [.finalChunk (if (processChunks jpFix OState.init [frameP 2, frameP 3]).1.sawToolUse
          then "tool_calls" else "stop"), .done]) :=
  ⟨(C5_non_cle_exception_amended jpFix [frameP 2, frameP 3]).1 OState.init
      (.obj [("__type", .str "SomethingElse")]) (by decide) (by decide) (by decide),
   (C5_non_cle_exception_amended jpFix [frameP 2, frameP 3]).2.1,
   (C5_non_cle_exception_amended jpFix [frameP 2, frameP 3]).2.2 (by decide) (by decide)⟩

/-- C8 counterexample: a tool-use event named `web_search` is NOT dropped from
the streamed client output.  The OpenAI stream processor emits a tool-call
start chunk for it, and the Anthropic converter emits a tool-use
`content_block_start` for it — neither streaming path has a name filter. -/
theorem C8_counterexample :
    (processMessage OState.init
        (.obj [("toolUseId", .str "t1"), ("name", .str "web_search")])).2.1 =
      [.toolStart 0 (.str "t1") (.str "web_search")] ∧
    (convertToAnthropicEvents AState.init
        (.obj [("toolUseId", .str "t1"), ("name", .str "web_search")])).2 =
      [.blockStartTool 1 (.str "t1") (.str "web_search")] := by
  decide

/-- C8 (amended): the `web_search`/`websearch` name filter exists only in the
non-stream collector, where such an event is skipped entirely (the tool map,
the fragment buffers and the warning count are untouched).  The streaming
paths have no filter: for a first-seen tool-use id the OpenAI processor emits
its tool-call start chunk and the Anthropic converter emits its tool-use
`content_block_start`, whatever the tool name — including `web_search`. -/
theorem C8_web_search_filter_amended (jps : String → Option Json) :
    (∀ (st : CState) (event : Json),
        (fieldTruthy event "toolUseId" && fieldTruthy event "name") = true →
        (∃ s : String, jget event "name" = some (.str s) ∧
          (s == "web_search" || s == "websearch") = true) →
        (collectEvent jps st event).toolUsesMap = st.toolUsesMap ∧
        (collectEvent jps st event).toolInputBuffers = st.toolInputBuffers ∧
        (collectEvent jps st event).warns = st.warns) ∧
    (∀ (st : OState) (payload : Json),
        isContentLenExceeded (eventOf payload) = false →
        (fieldTruthy (eventOf payload) "toolUseId" &&
          fieldTruthy (eventOf payload) "name") = true →
        jassoc st.toolIndexByToolUseId ((jget (eventOf payload) "toolUseId").getD .null) =
          none →
        OutRec.toolStart st.nextToolIndex ((jget (eventOf payload) "toolUseId").getD .null)
            ((jget (eventOf payload) "name").getD .null) ∈ (processMessage st payload).2.1) ∧
    (∀ (st : AState) (event : Json),
        (fieldTruthy event "toolUseId" && fieldTruthy event "name") = true →
        findBlockIndex st.toolUseIdByBlockIndex ((jget event "toolUseId").getD .null) =
          none →
        AEvent.blockStartTool (st.toolUseIdByBlockIndex.length + 1)
            ((jget event "toolUseId").getD .null) ((jget event "name").getD .null)
          ∈ (convertToAnthropicEvents st event).2) := by
  refine ⟨?_, ?_, ?_⟩
  · rintro st event htool ⟨s, hname, hws⟩
    unfold collectEvent
    simp only [htool, hname, hws, Bool.and_true, Bool.true_and, if_true]
    split <;> simp
  · intro st payload hc htool hnone
    unfold processMessage
    simp only [hc, Bool.false_eq_true, if_false, htool, if_true, hnone]
    simp [List.mem_append]
  · intro st event htool hnone
    unfold convertToAnthropicEvents
    split
    next st1 textEvents heq =>
      have hidx : st1.toolUseIdByBlockIndex = st.toolUseIdByBlockIndex := by
        have : (st1, textEvents).1.toolUseIdByBlockIndex =
            st.toolUseIdByBlockIndex := by
          rw [← heq]
          split <;> (try split) <;> (try split) <;> simp
        simpa using this
      simp only [htool, if_true, hidx, hnone]
      simp [List.mem_append]

/-- Witness for the amended C8 on the `web_search` tool-use event: the
collector skips it, while both streaming paths emit its tool-start event. -/
theorem C8_web_search_filter_amended_witness :
    ((collectEvent jpsFix CState.init
        (.obj [("toolUseId", .str "t1"), ("name", .str "web_search")])).toolUsesMap =
      CState.init.toolUsesMap ∧
     (collectEvent jpsFix CState.init
        (.obj [("toolUseId", .str "t1"), ("name", .str "web_search")])).toolInputBuffers =
      CState.init.toolInputBuffers ∧
     (collectEvent jpsFix CState.init
        (.obj [("toolUseId", .str "t1"), ("name", .str "web_search")])).warns =
      CState.init.warns) ∧
    OutRec.toolStart 0 (.str "t1") (.str "web_search") ∈
      (processMessage OState.init
        (.obj [("toolUseId", .str "t1"), ("name", .str "web_search")])).2.1 ∧
    AEvent.blockStartTool 1 (.str "t1") (.str "web_search") ∈
      (convertToAnthropicEvents AState.init
        (.obj [("toolUseId", .str "t1"), ("name", .str "web_search")])).2 :=
  ⟨(C8_web_search_filter_amended jpsFix).1 CState.init
      (.obj [("toolUseId", .str "t1"), ("name", .str "web_search")]) (by decide)
      ⟨"web_search", by decide, by decide⟩,
   (C8_web_search_filter_amended jpsFix).2.1 OState.init
      (.obj [("toolUseId", .str "t1"), ("name", .str "web_search")]) (by decide) (by decide)
      (by decide),
   (C8_web_search_filter_amended jpsFix).2.2 AState.init
      (.obj [("toolUseId", .str "t1"), ("name", .str "web_search")]) (by decide) (by decide)⟩

/-- C6 counterexample: the claim that string input fragments are appended to
the per-id buffer fails, because the accumulation gate requires the event to
carry BOTH `toolUseId` and a truthy `name`, while an input fragment carries
only `toolUseId` and `input`.  After a `t1` tool start, a fragment event with
the valid JSON text `[1]` and the stop event, the tool's input is still the
empty object and the per-id buffer is still empty — the fragment was dropped
even though `JSON.parse` of it succeeds. -/
theorem C6_counterexample :
    jassoc (collect jpsFix [cEvStart, cEvFrag, cEvStop]).toolUsesMap (.str "t1") =
      some ⟨.str "t1", .str "calc", .obj []⟩ ∧
    jassoc (collect jpsFix [cEvStart, cEvFrag, cEvStop]).toolInputBuffers (.str "t1") =
      some "" ∧
    jpsFix "[1]" = some (.arr [.num 1]) := by
  decide

/-- C6 (amended): in the non-stream collector, input fragments are processed
only for events carrying both `toolUseId` and a truthy `name` (a fragment
without `name` — the `tool_use_delta` shape — is dropped and the state is
unchanged); within that gate a string fragment appends to the per-id buffer
and an object fragment is assigned directly to the tool's input; on a stop
event for a known id whose nonblank buffer parses, the parsed value becomes
the tool's input, and on parse failure the input is kept and one warning is
counted — the collector never raises. -/
theorem C6_collector_reassembly_amended (jps : String → Option Json) :
    (∀ (st : CState) (event : Json),
        fieldTruthy event "content" = false →
        (fieldTruthy event "toolUseId" && fieldTruthy event "name") = false →
        (fieldTruthy event "stop" && fieldTruthy event "toolUseId") = false →
        collectEvent jps st event = st) ∧
    (∀ (st : CState) (event : Json) (s : String) (e0 : ToolEntry),
        fieldTruthy event "content" = false →
        (fieldTruthy event "toolUseId" && fieldTruthy event "name") = true →
        (match jget event "name" with
          | some (.str sn) => sn == "web_search" || sn == "websearch"
          | _ => false) = false →
        fieldTruthy event "stop" = false →
        jassoc st.toolUsesMap ((jget event "toolUseId").getD .null) = some e0 →
        jget event "input" = some (.str s) →
        collectEvent jps st event =
          { st with toolInputBuffers :=
              (updEntry st.toolInputBuffers ((jget event "toolUseId").getD .null)
                (fun b => b ++ s)) }) ∧
    (∀ (st : CState) (event : Json) (fs : List (String × Json)) (e0 : ToolEntry),
        fieldTruthy event "content" = false →
        (fieldTruthy event "toolUseId" && fieldTruthy event "name") = true →
        (match jget event "name" with
          | some (.str sn) => sn == "web_search" || sn == "websearch"
          | _ => false) = false →
        fieldTruthy event "stop" = false →
        jassoc st.toolUsesMap ((jget event "toolUseId").getD .null) = some e0 →
        jget event "input" = some (.obj fs) →
        collectEvent jps st event =
          { st with toolUsesMap :=
              (updEntry st.toolUsesMap ((jget event "toolUseId").getD .null)
                (fun t => { t with input := .obj fs })) }) ∧
    (∀ (st : CState) (event : Json) (buf : String) (e0 : ToolEntry) (v : Json),
        fieldTruthy event "content" = false →
        fieldTruthy event "name" = false →
        fieldTruthy event "stop" = true →
        fieldTruthy event "toolUseId" = true →
        jassoc st.toolUsesMap ((jget event "toolUseId").getD .null) = some e0 →
        jassoc st.toolInputBuffers ((jget event "toolUseId").getD .null) = some buf →
        buf ≠ "" →
        jsTrim buf ≠ "" →
        jps buf = some v →
        collectEvent jps st event =
          { st with toolUsesMap :=
              (updEntry st.toolUsesMap ((jget event "toolUseId").getD .null)
                (fun t => { t with input := v })) }) ∧
    (∀ (st : CState) (event : Json) (buf : String) (e0 : ToolEntry),
        fieldTruthy event "content" = false →
        fieldTruthy event "name" = false →
        fieldTruthy event "stop" = true →
        fieldTruthy event "toolUseId" = true →
        jassoc st.toolUsesMap ((jget event "toolUseId").getD .null) = some e0 →
        jassoc st.toolInputBuffers ((jget event "toolUseId").getD .null) = some buf →
        buf ≠ "" →
        jsTrim buf ≠ "" →
        jps buf = none →
        collectEvent jps st event = { st with warns := st.warns + 1 }) := by
  refine ⟨?_, ?_, ?_, ?_, ?_⟩
  · intro st event hcontent hgate hstop
    unfold collectEvent
    simp only [hcontent, Bool.false_eq_true, if_false, hgate, Bool.false_and, hstop]
  · intro st event s e0 hcontent hgate hweb hstop hseen hinput
    unfold collectEvent
    simp only [hcontent, Bool.false_eq_true, if_false, hgate, Bool.true_and, hweb,
      if_true, hseen, hinput, hstop, Bool.false_and]
  · intro st event fs e0 hcontent hgate hweb hstop hseen hinput
    unfold collectEvent
    simp only [hcontent, Bool.false_eq_true, if_false, hgate, Bool.true_and, hweb,
      if_true, hseen, hinput, hstop, Bool.false_and]
  · intro st event buf e0 v hcontent hname hstop hid hmap hbuf hb1 hb2 hjps
    unfold collectEvent
    simp only [hcontent, Bool.false_eq_true, if_false, hname, Bool.and_false,
      hstop, hid, Bool.and_self, Bool.true_and, if_true, hmap, hbuf, hb1, hb2,
      hjps, ne_eq, not_false_eq_true, decide_True, Bool.and_true, Bool.false_and]
  · intro st event buf e0 hcontent hname hstop hid hmap hbuf hb1 hb2 hjps
    unfold collectEvent
    simp only [hcontent, Bool.false_eq_true, if_false, hname, Bool.and_false,
      hstop, hid, Bool.and_self, Bool.true_and, if_true, hmap, hbuf, hb1, hb2,
      hjps, ne_eq, not_false_eq_true, decide_True, Bool.and_true, Bool.false_and]

/-- Witness for the amended C6: the nameless fragment is dropped, the named
string fragment appends, the named object fragment assigns, and the stop event
parses a good buffer into the input while a bad buffer only counts a
warning. -/
theorem C6_collector_reassembly_amended_witness :
    collectEvent jpsFix CState.init cEvFrag = CState.init ∧
    collectEvent jpsFix cStateW cEvFragNamed =
      { cStateW with toolInputBuffers :=
          (updEntry cStateW.toolInputBuffers (.str "t1") (fun b => b ++ "[1]")) } ∧
    collectEvent jpsFix cStateW cEvObjNamed =
      { cStateW with toolUsesMap :=
          (updEntry cStateW.toolUsesMap (.str "t1")
            (fun t => { t with input := .obj [("a", .num 1)] })) } ∧
    collectEvent jpsFix cStateBuf cEvStop =
      { cStateBuf with toolUsesMap :=
          (updEntry cStateBuf.toolUsesMap (.str "t1")
            (fun t => { t with input := .arr [.num 1] })) } ∧
    collectEvent jpsFix cStateBufBad cEvStop =
      { cStateBufBad with warns := cStateBufBad.warns + 1 } :=
  ⟨(C6_collector_reassembly_amended jpsFix).1 CState.init cEvFrag
      (by decide) (by decide) (by decide),
   (C6_collector_reassembly_amended jpsFix).2.1 cStateW cEvFragNamed "[1]"
      ⟨.str "t1", .str "calc", .obj []⟩ (by decide) (by decide) (by decide) (by decide)
      (by decide) (by decide),
   (C6_collector_reassembly_amended jpsFix).2.2.1 cStateW cEvObjNamed [("a", .num 1)]
      ⟨.str "t1", .str "calc", .obj []⟩ (by decide) (by decide) (by decide) (by decide)
      (by decide) (by decide),
   (C6_collector_reassembly_amended jpsFix).2.2.2.1 cStateBuf cEvStop "[1]"
      ⟨.str "t1", .str "calc", .obj []⟩ (.arr [.num 1]) (by decide) (by decide) (by decide)
      (by decide) (by decide) (by decide) (by decide) (by decide) (by decide),
   (C6_collector_reassembly_amended jpsFix).2.2.2.2 cStateBufBad cEvStop "oops"
      ⟨.str "t1", .str "calc", .obj []⟩ (by decide) (by decide) (by decide) (by decide)
      (by decide) (by decide) (by decide) (by decide) (by decide)⟩

/-- C7: when `getBestTokenWithUsage` reaches an index whose cached entry has
`available ≤ 0`, that attempt adds the index to the exhausted set and advances
the cursor, performing no decrement and no return for that index (the
selection just continues from the advanced state); the index is in the final
exhausted set of the whole call; and in every run — any oracle behaviour for
`getOrRefreshToken`, any fuel, any state — a quota decrement occurs only as
the action immediately preceding the return of that same index's token. -/
theorem C7_exhausted_before_decrement
    (oracle : Nat → List (Nat × Int) → Except Unit (List (Nat × Int)))
    (n attempt : Nat) (st : PoolState) (a : Int)
    (hassoc : natAssoc st.cache st.currentIndex = some a) (ha : a ≤ 0) :
    (selectLoop oracle n (attempt + 1) st =
      ((selectLoop oracle n attempt
          { st with exhausted := addSet st.exhausted st.currentIndex,
                    currentIndex := (st.currentIndex + 1) % n }).1,
       PoolAct.markExhausted st.currentIndex ::
         PoolAct.advance st.currentIndex ((st.currentIndex + 1) % n) ::
           (selectLoop oracle n attempt
             { st with exhausted := addSet st.exhausted st.currentIndex,
                       currentIndex := (st.currentIndex + 1) % n }).2.1,
       (selectLoop oracle n attempt
         { st with exhausted := addSet st.exhausted st.currentIndex,
                   currentIndex := (st.currentIndex + 1) % n }).2.2)) ∧
    st.currentIndex ∈ (selectLoop oracle n (attempt + 1) st).1.exhausted ∧
    (∀ (fuel : Nat) (st0 : PoolState),
      decRetOK (selectLoop oracle n fuel st0).2.1 = true) ∧
    (∀ (st1 : PoolState),
      decRetOK (getBestTokenWithUsage oracle n st1).2.1 = true) := by
  refine ⟨selectLoop_exhausted_step oracle n attempt st a hassoc ha, ?_,
    selectLoop_decRetOK oracle n, fun st1 => selectLoop_decRetOK oracle n n st1⟩
  rw [selectLoop_exhausted_step oracle n attempt st a hassoc ha]
  exact selectLoop_exhausted_mono oracle n attempt _ st.currentIndex
    (addSet_self st.exhausted st.currentIndex)

/-- Witness for C7 at a concrete pool: two configs, index 0 cached with zero
quota and index 1 with five; the run marks 0 exhausted, advances, and selects
1, with the decrement immediately preceding the return. -/
theorem C7_exhausted_before_decrement_witness :
    natAssoc [(0, (0 : Int)), (1, 5)] 0 = some 0 ∧ (0 : Int) ≤ 0 ∧
    0 ∈ (selectLoop (fun _ c => Except.ok c) 2 2 ⟨[(0, 0), (1, 5)], [], 0⟩).1.exhausted ∧
    decRetOK (getBestTokenWithUsage (fun _ c => Except.ok c) 2
      ⟨[(0, 0), (1, 5)], [], 0⟩).2.1 = true :=
  ⟨by decide, by decide,
   (C7_exhausted_before_decrement (fun _ c => Except.ok c) 2 1
      ⟨[(0, 0), (1, 5)], [], 0⟩ 0 (by decide) (by decide)).2.1,
   (C7_exhausted_before_decrement (fun _ c => Except.ok c) 2 1
      ⟨[(0, 0), (1, 5)], [], 0⟩ 0 (by decide) (by decide)).2.2.2 ⟨[(0, 0), (1, 5)], [], 0⟩⟩

/-- C10: in both versions of `getOrRefreshToken` there is no `await` between
the cache check, the `refreshLocks` check, the synchronous start of the
refresh (which issues the upstream call) and `refreshLocks.set`, so that
entry prefix is one atomic segment under the JavaScript event loop.  When any
number of concurrent calls for the same stale index all enter before the
refresh resolves, exactly one upstream refresh call is issued, every caller
awaits the same in-flight promise, each receives the outcome of that single
refresh, and the lock is cleared on both the success and the failure
resolution. -/
theorem C10_single_flight_refresh (tids : List Nat) (h : tids ≠ []) :
    (runGetOrRefresh tids SFState.stale).upstreamCalls = 1 ∧
    (runGetOrRefresh tids SFState.stale).waiters = tids ∧
    (runGetOrRefresh tids SFState.stale).lock = true ∧
    (∀ success : Bool,
      (resolveRefresh (runGetOrRefresh tids SFState.stale) success).results =
        tids.map (fun t => (t, success)) ∧
      (resolveRefresh (runGetOrRefresh tids SFState.stale) success).lock = false ∧
      (resolveRefresh (runGetOrRefresh tids SFState.stale) success).upstreamCalls = 1) := by
  cases tids with
  | nil => exact absurd rfl h
  | cons t ts =>
    have h1 : runGetOrRefresh (t :: ts) SFState.stale =
        { cacheFresh := false, lock := true, upstreamCalls := 1,
          waiters := t :: ts, results := [] } := by
      rw [runGetOrRefresh, List.foldl_cons]
      have hstep : getOrRefreshStep SFState.stale t = ⟨false, true, 1, [t], []⟩ := rfl
      rw [hstep, ← runGetOrRefresh,
        runGetOrRefresh_locked ts ⟨false, true, 1, [t], []⟩ rfl rfl]
      simp
    rw [h1]
    exact ⟨rfl, rfl, rfl, fun success => ⟨by simp [resolveRefresh], rfl, rfl⟩⟩

/-- Witness for C10: two concurrent callers on a stale index yield one
upstream call, and both receive the refresh outcome in either resolution. -/
theorem C10_single_flight_refresh_witness :
    ([0, 1] : List Nat) ≠ [] ∧
    (runGetOrRefresh [0, 1] SFState.stale).upstreamCalls = 1 ∧
    (resolveRefresh (runGetOrRefresh [0, 1] SFState.stale) true).results =
      [(0, true), (1, true)] ∧
    (resolveRefresh (runGetOrRefresh [0, 1] SFState.stale) false).results =
      [(0, false), (1, false)] ∧
    (resolveRefresh (runGetOrRefresh [0, 1] SFState.stale) false).lock = false :=
  ⟨by decide,
   (C10_single_flight_refresh [0, 1] (by decide)).1,
   ((C10_single_flight_refresh [0, 1] (by decide)).2.2.2 true).1,
   ((C10_single_flight_refresh [0, 1] (by decide)).2.2.2 false).1,
   ((C10_single_flight_refresh [0, 1] (by decide)).2.2.2 false).2.1⟩

end Kiro
